import Mathlib

/-!
Verification of the hackathon extraction pipeline (`parse_hackathons.py` and
its near-duplicate `utils/parse_hackathons.py`).

The Python code is shallowly embedded: strings become `List Char`, Python
`None`-able fields become `Option`, `datetime.date` values become a `RuDate`
structure, Python `float` arithmetic on prize amounts is modelled by exact
rationals (the amounts involved are decimal literals scaled by powers of ten,
so IEEE rounding is immaterial to the stated equalities), and the `re` regular
expressions used by the extractors are embedded as abstract syntax trees
interpreted by a backtracking matcher with Python's ordered-alternation,
greedy/lazy semantics.  Word characters for the `\b` boundary of the year
regexes are modelled as ASCII alphanumerics, underscore and Cyrillic letters,
which covers the alphabet the program operates on.
-/

namespace HackSpec

/-! ## Character and string primitives -/

/-- Lowercasing as Python `str.lower` acts on the alphabet used by the
program: ASCII letters and the Russian alphabet (А..Я and Ё). -/
def ruLower (c : Char) : Char :=
  if c = 'Ё' then 'ё'
  else if 'А' ≤ c ∧ c ≤ 'Я' then Char.ofNat (c.toNat + 32)
  else c.toLower

/-- Python `\s` for the ASCII whitespace characters the pages contain. -/
def isWsChar (c : Char) : Bool :=
  c = ' ' || c = '\t' || c = '\n' || c = '\r' || c = '\x0b' || c = '\x0c'

/-- ASCII digit. -/
def isDigitChar (c : Char) : Bool := '0' ≤ c && c ≤ '9'

/-- A word character for the purposes of Python's `\b` on this program's
texts: ASCII alphanumeric, underscore, or a Cyrillic letter. -/
def isWordChar (c : Char) : Bool :=
  c.isAlphanum || c = '_' || (0x400 ≤ c.toNat && c.toNat ≤ 0x4FF)

/-- Lowercase a character list. -/
def lowerL (l : List Char) : List Char := l.map ruLower

/-- Substring containment, Python's `needle in hay`. -/
def containsSub (needle : List Char) : List Char → Bool
  | [] => needle.isEmpty
  | c :: t => needle.isPrefixOf (c :: t) || containsSub needle t

/-- Python `str.lstrip()` on our whitespace alphabet. -/
def stripLeft (l : List Char) : List Char := l.dropWhile isWsChar

/-- Python `str.rstrip()`. -/
def stripRight (l : List Char) : List Char :=
  (l.reverse.dropWhile isWsChar).reverse

/-- Python `str.strip()`. -/
def pyStrip (l : List Char) : List Char := stripRight (stripLeft l)

/-- Python `str.split()` with no argument: split on runs of whitespace,
dropping empty fields.  `cur` is the reversed word being accumulated. -/
def pySplitAux (cur : List Char) : List Char → List (List Char)
  | [] => if cur.isEmpty then [] else [cur.reverse]
  | c :: t =>
    if isWsChar c then
      if cur.isEmpty then pySplitAux [] t
      else cur.reverse :: pySplitAux [] t
    else pySplitAux (c :: cur) t

def pySplit (l : List Char) : List (List Char) := pySplitAux [] l

/-- Digit string to its numeric value (the string is known to be all digits). -/
def digitsToNat (l : List Char) : Nat :=
  l.foldl (fun acc c => acc * 10 + (c.toNat - '0'.toNat)) 0

/-- Python `int(s)` restricted to the shapes arising here: an optional sign
followed by at least one ASCII digit, nothing else.  Returns `none` where
`int` raises `ValueError`. -/
def pyInt (l : List Char) : Option Int :=
  match l with
  | '-' :: rest =>
    if rest ≠ [] ∧ rest.all isDigitChar then some (-(digitsToNat rest : Int)) else none
  | '+' :: rest =>
    if rest ≠ [] ∧ rest.all isDigitChar then some (digitsToNat rest : Int) else none
  | _ =>
    if l ≠ [] ∧ l.all isDigitChar then some (digitsToNat l : Int) else none

/-! ## A small regular-expression engine

Embeds the `re` patterns the extractors use.  Quantifiers in those patterns
only ever apply to single-character classes, so the engine restricts `*`, `+`,
`*?` and `{m,n}` to character classes, which keeps the backtracking matcher
structurally terminating while reproducing Python's ordered-alternation,
greedy/lazy, first-match semantics exactly on these patterns. -/

inductive RE where
  | eps : RE
  | cls (p : Char → Bool) : RE
  | lit (w : List Char) : RE
  | litCI (w : List Char) : RE
  | cat (a b : RE) : RE
  | alt (a b : RE) : RE
  | opt (a : RE) : RE
  | starC (p : Char → Bool) : RE
  | plusC (p : Char → Bool) : RE
  | lazyStarC (p : Char → Bool) : RE
  | repC (lo hi : Nat) (p : Char → Bool) : RE
  | grp (i : Nat) (a : RE) : RE

/-- Captured groups, most recent capture first. -/
abbrev Caps := List (Nat × List Char)

/-- Matcher result: remaining input and captures. -/
abbrev MRes := Option (List Char × Caps)

/-- Case-insensitive prefix test (`w` is given lowercased). -/
def isPrefixOfCI : List Char → List Char → Bool
  | [], _ => true
  | _ :: _, [] => false
  | a :: wt, c :: lt => (a = ruLower c) && isPrefixOfCI wt lt

/-- Length of the maximal run of characters satisfying `p`. -/
def maxRun (p : Char → Bool) : List Char → Nat
  | [] => 0
  | c :: t => if p c then maxRun p t + 1 else 0

/-- Try `k j`, `k (j-1)`, ..., `n` attempts in all (greedy order). -/
def tryDescend (k : Nat → MRes) : Nat → Nat → MRes
  | 0, _ => none
  | n + 1, j =>
    match k j with
    | some r => some r
    | none => tryDescend k n (j - 1)

/-- Try `k j`, `k (j+1)`, ..., `n` attempts in all (lazy order). -/
def tryAscend (k : Nat → MRes) : Nat → Nat → MRes
  | 0, _ => none
  | n + 1, j =>
    match k j with
    | some r => some r
    | none => tryAscend k n (j + 1)

/-- Backtracking matcher in continuation-passing style.  `mrun re s cp k`
attempts to match `re` at the head of `s` and passes the rest of the input and
the captures to `k`; alternatives are tried in written order and the first
overall success wins, as in Python `re`. -/
def mrun : RE → List Char → Caps → (List Char → Caps → MRes) → MRes
  | .eps, s, cp, k => k s cp
  | .cls p, s, cp, k =>
    match s with
    | [] => none
    | c :: t => if p c then k t cp else none
  | .lit w, s, cp, k => if w.isPrefixOf s then k (s.drop w.length) cp else none
  | .litCI w, s, cp, k => if isPrefixOfCI w s then k (s.drop w.length) cp else none
  | .cat a b, s, cp, k => mrun a s cp (fun s1 c1 => mrun b s1 c1 k)
  | .alt a b, s, cp, k =>
    match mrun a s cp k with
    | some r => some r
    | none => mrun b s cp k
  | .opt a, s, cp, k =>
    match mrun a s cp k with
    | some r => some r
    | none => k s cp
  | .starC p, s, cp, k =>
    let m := maxRun p s
    tryDescend (fun j => k (s.drop j) cp) (m + 1) m
  | .plusC p, s, cp, k =>
    match s with
    | [] => none
    | c :: t =>
      if p c then
        let m := maxRun p t
        tryDescend (fun j => k (t.drop j) cp) (m + 1) m
      else none
  | .lazyStarC p, s, cp, k =>
    let m := maxRun p s
    tryAscend (fun j => k (s.drop j) cp) (m + 1) 0
  | .repC lo hi p, s, cp, k =>
    let m := min hi (maxRun p s)
    if m < lo then none
    else tryDescend (fun j => k (s.drop j) cp) (m - lo + 1) m
  | .grp i a, s, cp, k =>
    mrun a s cp (fun s1 c1 => k s1 ((i, s.take (s.length - s1.length)) :: c1))

/-- A successful `re.search`: text before the match, the matched span
(group 0), the captures, and the text after the match. -/
structure MatchInfo where
  pre : List Char
  matched : List Char
  caps : Caps
  rest : List Char
deriving Repr, DecidableEq

/-- Scan positions left to right, as `re.search` does. -/
def searchAux (re : RE) (acc : List Char) (s : List Char) : Option MatchInfo :=
  match mrun re s [] (fun rest cp => some (rest, cp)) with
  | some (rest, cp) => some ⟨acc.reverse, s.take (s.length - rest.length), cp, rest⟩
  | none =>
    match s with
    | [] => none
    | _ :: t =>
      match searchAux re ((s.headD ' ') :: acc) t with
      | some mi => some mi
      | none => none

/-- `re.search(pattern, s)`. -/
def reSearch (re : RE) (s : List Char) : Option MatchInfo := searchAux re [] s

/-- `m.group(i)` for `i ≥ 1`: `none` when the group did not participate. -/
def capGet (cp : Caps) (i : Nat) : Option (List Char) :=
  (cp.find? (fun x => x.1 = i)).map (fun x => x.2)

/-- `re.sub(pattern, repl, s)` for patterns that cannot match the empty
string (all patterns embedded here contain a mandatory literal or class). -/
def subAllAux (re : RE) (repl : List Char) : Nat → List Char → List Char
  | 0, s => s
  | fuel + 1, s =>
    match reSearch re s with
    | none => s
    | some mi =>
      if mi.matched.isEmpty then s
      else mi.pre ++ repl ++ subAllAux re repl fuel mi.rest

def subAll (re : RE) (repl : List Char) (s : List Char) : List Char :=
  subAllAux re repl (s.length + 1) s

/-- `re.findall` collecting the whole match of each non-overlapping
occurrence (the embedded pattern has exactly one group spanning the whole
pattern, for which `findall` returns the same strings). -/
def findAllAux (re : RE) : Nat → List Char → List (List Char)
  | 0, _ => []
  | fuel + 1, s =>
    match reSearch re s with
    | none => []
    | some mi =>
      if mi.matched.isEmpty then []
      else mi.matched :: findAllAux re fuel mi.rest

def findAllMatches (re : RE) (s : List Char) : List (List Char) :=
  findAllAux re (s.length + 1) s

/-- Boolean `re.search` success. -/
def hasMatch (re : RE) (s : List Char) : Bool := (reSearch re s).isSome

/-- Sequence a list of regex pieces. -/
def reseq (l : List RE) : RE := l.foldr RE.cat RE.eps

/-- Ordered alternation of a nonempty list of pieces. -/
def realts : List RE → RE
  | [] => RE.eps
  | [x] => x
  | x :: t => RE.alt x (realts t)

/-- Case-sensitive literal from a string. -/
def L (s : String) : RE := RE.lit s.toList

/-- Case-insensitive literal from a string. -/
def LCI (s : String) : RE := RE.litCI (lowerL s.toList)

/-! ## Dates (`parse_ru_date`, `datetime` comparison and subtraction) -/

/-- A valid `datetime.date` as produced by `parse_ru_date`. -/
structure RuDate where
  year : Nat
  month : Nat
  day : Nat
deriving Repr, DecidableEq

/-- Gregorian leap year, as `datetime` uses. -/
def isLeap (y : Nat) : Bool := y % 4 = 0 && (y % 100 ≠ 0 || y % 400 = 0)

def daysInMonth (y m : Nat) : Nat :=
  if m = 2 then (if isLeap y then 29 else 28)
  else if m = 4 ∨ m = 6 ∨ m = 9 ∨ m = 11 then 30
  else 31

/-- `datetime.date.toordinal`: day number with 0001-01-01 ↦ 1. -/
def daysBeforeYear (y : Nat) : Nat :=
  365 * (y - 1) + ((y - 1) / 4 - (y - 1) / 100 + (y - 1) / 400)

def daysBeforeMonth (y m : Nat) : Nat :=
  (((List.range (m - 1)).map (fun i => daysInMonth y (i + 1)))).sum

def toOrdinal (d : RuDate) : Nat :=
  daysBeforeYear d.year + daysBeforeMonth d.year d.month + d.day

/-- `datetime` comparison is lexicographic on (year, month, day). -/
def dateLt (a b : RuDate) : Bool :=
  a.year < b.year ||
    (a.year = b.year && (a.month < b.month ||
      (a.month = b.month && a.day < b.day)))

def dateLe (a b : RuDate) : Bool := !(dateLt b a)

/-- `abs((b - a).days)` for two midnight datetimes. -/
def spanDaysAbs (a b : RuDate) : Nat :=
  ((toOrdinal b : Int) - (toOrdinal a : Int)).natAbs

/-- The `month_to_num` mapping (keys are lowercase; the caller lowercases). -/
def monthToNum (m : List Char) : Option Nat :=
  if m = ("января").toList then some 1
  else if m = ("февраля").toList then some 2
  else if m = ("марта").toList then some 3
  else if m = ("апреля").toList then some 4
  else if m = ("мая").toList then some 5
  else if m = ("июня").toList then some 6
  else if m = ("июля").toList then some 7
  else if m = ("августа").toList then some 8
  else if m = ("сентября").toList then some 9
  else if m = ("октября").toList then some 10
  else if m = ("ноября").toList then some 11
  else if m = ("декабря").toList then some 12
  else none

/-- The inner `parse_ru_date` of the final-validation block: reject banner
leakage, split into exactly three whitespace-separated parts, look the month
up, convert day and year with `int`, and build a `datetime` (which checks
month/day/year ranges, raising → `none`). -/
def parse_ru_date (s : List Char) : Option RuDate :=
  if s.isEmpty || containsSub (("Исследования").toList) s
      || containsSub (("подпис").toList) (lowerL s) then none
  else
    match pySplit (pyStrip s) with
    | [day, mon, year] =>
      match monthToNum (lowerL mon) with
      | none => none
      | some mnum =>
        match pyInt year, pyInt day with
        | some y, some d =>
          if 1 ≤ y ∧ y ≤ 9999 ∧ 1 ≤ d ∧ d ≤ (daysInMonth y.toNat mnum : Int)
          then some ⟨y.toNat, mnum, d.toNat⟩
          else none
        | _, _ => none
    | _ => none

/-! ## Year tokens: `202\d|203\d`, with and without `\b` -/

/-- Does `a b c d` spell a year token `202\d|203\d`? -/
def isYearDigits (a b c d : Char) : Bool :=
  a = '2' && b = '0' && (c = '2' || c = '3') && isDigitChar d

/-- `re.search(r'202\d|203\d', s)`: first (leftmost) year token. -/
def findYearTok : List Char → Option (List Char)
  | a :: b :: c :: d :: rest =>
    if isYearDigits a b c d then some [a, b, c, d]
    else findYearTok (b :: c :: d :: rest)
  | _ :: t => findYearTok t
  | [] => none

/-- Word-boundary checks around a candidate year token. -/
def boundaryOk (prev : Option Char) (next : List Char) : Bool :=
  (match prev with | none => true | some c => !isWordChar c) &&
  (match next with | [] => true | c :: _ => !isWordChar c)

/-- `re.search(r'\b(202\d|203\d)\b', s)`, tracking the previous character. -/
def findYearTokBAux (prev : Option Char) : List Char → Option (List Char)
  | a :: b :: c :: d :: rest =>
    if isYearDigits a b c d && boundaryOk prev rest then some [a, b, c, d]
    else findYearTokBAux (some a) (b :: c :: d :: rest)
  | _ :: t => findYearTokBAux prev t
  | [] => none

def findYearTokB (s : List Char) : Option (List Char) := findYearTokBAux none s

/-- `re.sub(r'\b(202\d|203\d)\b', y, s)`: replace every boundary-delimited
year token (matches are found on the original string, non-overlapping). -/
def subYearAllBAux (y : List Char) (prev : Option Char) : List Char → List Char
  | a :: b :: c :: d :: rest =>
    if isYearDigits a b c d && boundaryOk prev rest then
      y ++ subYearAllBAux y (some d) rest
    else a :: subYearAllBAux y (some a) (b :: c :: d :: rest)
  | x :: t => x :: subYearAllBAux y (some x) t
  | [] => []

def subYearAllB (y s : List Char) : List Char := subYearAllBAux y none s

/-- The twelve Russian month names in the `months` alternation, in source
order. -/
def ruMonths : List String :=
  ["января", "февраля", "марта", "апреля", "мая", "июня",
   "июля", "августа", "сентября", "октября", "ноября", "декабря"]

/-- The `(?:января|…|декабря)` alternation (case-sensitive). -/
def monthsRE : RE := realts (ruMonths.map L)

/-- `\d{1,2}\s+(?:января|…|декабря)`, used by `update_year_in_date` to decide
whether a string without a year still denotes a day+month date. -/
def dayMonthRE : RE :=
  reseq [RE.repC 1 2 isDigitChar, RE.plusC isWsChar, monthsRE]

/-- `update_year_in_date(date_str, new_year)` (identical text in both
modules): replace a differing year, or append the year to a day+month date. -/
def update_year_in_date (ds newYear : List Char) : List Char :=
  if ds.isEmpty then ds
  else
    match findYearTokB ds with
    | some y => if y ≠ newYear then subYearAllB newYear ds else ds
    | none =>
      if hasMatch dayMonthRE ds then ds ++ (' ' :: newYear) else ds

/-- The `utils` module's copy of `update_year_in_date` (same source text). -/
def update_year_in_date_utils (ds newYear : List Char) : List Char :=
  if ds.isEmpty then ds
  else
    match findYearTokB ds with
    | some y => if y ≠ newYear then subYearAllB newYear ds else ds
    | none =>
      if hasMatch dayMonthRE ds then ds ++ (' ' :: newYear) else ds

/-! ## Expected-year computation and the year-rewriting phase -/

/-- `src/parse_hackathons.py`: year from the name, else from
`start_of_hack`, else from `end_of_hack`, else `str(datetime.now().year)`. -/
def expectedYearMain (name : List Char) (start fin : Option (List Char))
    (cur : Nat) : List Char :=
  match findYearTok name with
  | some y => y
  | none =>
    match start.bind findYearTok with
    | some y => y
    | none =>
      match fin.bind findYearTok with
      | some y => y
      | none => (toString cur).toList

/-- `src/utils/parse_hackathons.py`: identical priority, but the final
fallback is `str(datetime.now().year + 1)`. -/
def expectedYearUtils (name : List Char) (start fin : Option (List Char))
    (cur : Nat) : List Char :=
  match findYearTok name with
  | some y => y
  | none =>
    match start.bind findYearTok with
    | some y => y
    | none =>
      match fin.bind findYearTok with
      | some y => y
      | none => (toString (cur + 1)).toList

/-- The output record of `parse_hackathon_details` (fields as in the source;
`amount_money` modelled as an exact rational). -/
structure HRecord where
  name : Option (List Char)
  task_description : Option (List Char)
  start_of_registration : Option (List Char)
  end_of_registration : Option (List Char)
  start_of_hack : Option (List Char)
  end_of_hack : Option (List Char)
  amount_money : Option ℚ
  type : Option (List Char)
  url : List Char
deriving Repr, DecidableEq

/-- The final year-rewriting phase of `parse_hackathon_details` (the block
from the `expected_year` computation through the three
`update_year_in_date` calls).  `cur` is `datetime.now().year`.  This phase is
only reached with the name set; a missing name is read as the empty string. -/
def yearRewritePhase (r : HRecord) (cur : Nat) : HRecord :=
  let expected := expectedYearMain (r.name.getD []) r.start_of_hack r.end_of_hack cur
  { r with
    end_of_registration :=
      r.end_of_registration.map (fun d => update_year_in_date d expected),
    start_of_hack :=
      r.start_of_hack.map (fun d => update_year_in_date d expected),
    end_of_hack :=
      r.end_of_hack.map (fun d => update_year_in_date d expected) }

/-- The FINAL VALIDATION block: when both event dates parse and the end is
strictly before the start, swap same-year pairs, null the end of cross-year
pairs more than 365 days apart, and swap the rest. -/
def validateChronology (r : HRecord) : HRecord :=
  match r.start_of_hack, r.end_of_hack with
  | some s, some e =>
    if s ≠ [] ∧ e ≠ [] then
      match parse_ru_date s, parse_ru_date e with
      | some ds, some de =>
        if dateLt de ds then
          if ds.year = de.year then
            { r with start_of_hack := some e, end_of_hack := some s }
          else if spanDaysAbs ds de > 365 then
            { r with end_of_hack := none }
          else
            { r with start_of_hack := some e, end_of_hack := some s }
        else r
      | _, _ => r
    else r
  | _, _ => r

/-- The two reconciliation steps in source order: chronology validation
(lines 655–699) happens before the year rewriting (lines 758–802). -/
def reconcileMain (r : HRecord) (cur : Nat) : HRecord :=
  yearRewritePhase (validateChronology r) cur

/-! ## Prize extraction (the `prize_patterns` cascade and `extract_money`) -/

/-- `(\d[\s\d]*[\d,.]+)` as capture group 1. -/
def amountG1 : RE :=
  RE.grp 1 (reseq [RE.cls isDigitChar,
    RE.starC (fun c => isWsChar c || isDigitChar c),
    RE.plusC (fun c => isDigitChar c || c = ',' || c = '.')])

/-- `(млн|тыс)?` as capture group 2. -/
def unitG2 : RE := RE.opt (RE.grp 2 (RE.alt (LCI ("млн")) (LCI ("тыс"))))

/-- `(руб|₽|рубл)` as capture group 3. -/
def curG3 : RE := RE.grp 3 (realts [LCI ("руб"), L ("₽"), LCI ("рубл")])

/-- `[а-я]` under `re.IGNORECASE`. -/
def ruazCls : Char → Bool := fun c =>
  let lc := ruLower c
  'а' ≤ lc && lc ≤ 'я'

/-- Any character but a newline (`.` without `DOTALL`). -/
def anyNoNl : Char → Bool := fun c => c ≠ '\n'

/-- Prize pattern 1:
`(?:призовой\s+фонд|призовой|приз|награда)(?:\s+составляет)?(?:\s+в\s+размере)?[\s:]*(amount)\s*(млн|тыс)?\.?\s*(руб|₽|рубл)`. -/
def prizeP1 : RE :=
  reseq [realts [reseq [LCI ("призовой"), RE.plusC isWsChar, LCI ("фонд")],
                 LCI ("призовой"), LCI ("приз"), LCI ("награда")],
         RE.opt (reseq [RE.plusC isWsChar, LCI ("составляет")]),
         RE.opt (reseq [RE.plusC isWsChar, LCI ("в"), RE.plusC isWsChar,
                        LCI ("размере")]),
         RE.starC (fun c => isWsChar c || c = ':'),
         amountG1, RE.starC isWsChar, unitG2,
         RE.opt (RE.cls (fun c => c = '.')), RE.starC isWsChar, curG3]

/-- Prize pattern 2:
`(amount)\s*(млн|тыс)?\.?\s*(руб|₽|рубл).*?(?:призовой\s+фонд|приз)`. -/
def prizeP2 : RE :=
  reseq [amountG1, RE.starC isWsChar, unitG2,
         RE.opt (RE.cls (fun c => c = '.')), RE.starC isWsChar, curG3,
         RE.lazyStarC anyNoNl,
         RE.alt (reseq [LCI ("призовой"), RE.plusC isWsChar, LCI ("фонд")])
                (LCI ("приз"))]

/-- Prize pattern 3:
`(?:призов[а-я]+\s+на\s+сумму|призов[а-я]+\s+фонд[а-я]+)\s+(amount)\s*(млн|тыс)?`. -/
def prizeP3 : RE :=
  reseq [RE.alt (reseq [LCI ("призов"), RE.plusC ruazCls, RE.plusC isWsChar,
                        LCI ("на"), RE.plusC isWsChar, LCI ("сумму")])
                (reseq [LCI ("призов"), RE.plusC ruazCls, RE.plusC isWsChar,
                        LCI ("фонд"), RE.plusC ruazCls]),
         RE.plusC isWsChar, amountG1, RE.starC isWsChar, unitG2]

/-- Prize pattern 4: `(?:1\s*место[^\d]*)(amount)\s*(?:руб|₽|рубл)`. -/
def prizeP4 : RE :=
  reseq [L ("1"), RE.starC isWsChar, LCI ("место"),
         RE.starC (fun c => !isDigitChar c),
         amountG1, RE.starC isWsChar,
         realts [LCI ("руб"), L ("₽"), LCI ("рубл")]]

/-- The ordered cascade; the flag records whether the pattern has a second
(unit) group, mirroring `len(prize_match.groups()) > 1`. -/
def prizePatterns : List (RE × Bool) :=
  [(prizeP1, true), (prizeP2, true), (prizeP3, true), (prizeP4, false)]

/-- `group(1).replace(' ', '').replace(',', '.')`. -/
def normalizeAmount (l : List Char) : List Char :=
  (l.filter (fun c => c ≠ ' ')).map (fun c => if c = ',' then '.' else c)

/-- Python `float(s)` on the digit/dot strings produced by
`normalizeAmount`, as an exact rational. -/
def pyFloatQ (l : List Char) : Option ℚ :=
  let sb : ℚ × List Char :=
    match l with
    | '-' :: t => (-1, t)
    | '+' :: t => (1, t)
    | _ => (1, l)
  let intPart := sb.2.takeWhile isDigitChar
  let rest := sb.2.dropWhile isDigitChar
  match rest with
  | [] => if intPart ≠ [] then some (sb.1 * (digitsToNat intPart : ℚ)) else none
  | '.' :: frac =>
    if frac.all isDigitChar ∧ (intPart ≠ [] ∨ frac ≠ []) then
      some (sb.1 * ((digitsToNat (intPart ++ frac) : ℚ) / (10 ^ frac.length)))
    else none
  | _ => none

/-- The multiplier: ×10⁶ for a unit containing `млн`, ×10³ for `тыс`. -/
def prizeMult (u : Option (List Char)) : ℚ :=
  match u with
  | some g =>
    if containsSub (("млн").toList) (lowerL g) then 1000000
    else if containsSub (("тыс").toList) (lowerL g) then 1000
    else 1
  | none => 1

/-- `"1 место" in group(0).lower() or "1-е место" in group(0).lower()`. -/
def mentionsFirstPlace (g0 : List Char) : Bool :=
  containsSub (("1 место").toList) (lowerL g0) ||
    containsSub (("1-е место").toList) (lowerL g0)

/-- `re.search(r'<d>\s*место', text, re.IGNORECASE)`. -/
def placeRE (d : Char) : RE :=
  reseq [RE.lit [d], RE.starC isWsChar, LCI ("место")]

def hasSecondAndThird (txt : List Char) : Bool :=
  hasMatch (placeRE '2') txt && hasMatch (placeRE '3') txt

/-- The prize loop: first pattern whose match's amount parses as a float
wins (a `ValueError` falls through to the next pattern); the matched amount
is doubled when the match mentions first place and the page mentions second
and third places. -/
def prizeLoop (txt : List Char) : List (RE × Bool) → Option ℚ
  | [] => none
  | (p, useU) :: rest =>
    match reSearch p txt with
    | none => prizeLoop txt rest
    | some mi =>
      match pyFloatQ (normalizeAmount ((capGet mi.caps 1).getD [])) with
      | none => prizeLoop txt rest
      | some q =>
        let mult := prizeMult (if useU then capGet mi.caps 2 else none)
        let base := q * mult
        some (if mentionsFirstPlace mi.matched && hasSecondAndThird txt
              then base * 2 else base)

/-- The `amount_money` extraction of `parse_hackathon_details`. -/
def extractPrizeAmount (txt : List Char) : Option ℚ :=
  prizeLoop txt prizePatterns

/-- The first pattern of the cascade with any match at all (before float
conversion), for stating which pattern "wins". -/
def firstPrizeMatch (txt : List Char) : List (RE × Bool) → Option (MatchInfo × Bool)
  | [] => none
  | (p, useU) :: rest =>
    match reSearch p txt with
    | some mi => some (mi, useU)
    | none => firstPrizeMatch txt rest

/-- The standalone `extract_money` helper:
`(\d[\s\d]*[\d,.]+)\s*(млн|тыс)?.{0,5}(руб|₽|рубл)` with `re.IGNORECASE`. -/
def moneyRE : RE :=
  reseq [amountG1, RE.starC isWsChar, unitG2, RE.repC 0 5 anyNoNl, curG3]

def extract_money (txt : List Char) : Option ℚ :=
  if txt.isEmpty then none
  else
    match reSearch moneyRE txt with
    | none => none
    | some mi =>
      match pyFloatQ (normalizeAmount ((capGet mi.caps 1).getD [])) with
      | some q => some (q * prizeMult (capGet mi.caps 2))
      | none => none

/-! ## The last-resort event-date fallback -/

/-- `(\d{1,2}\s+(?:января|…|декабря)\s+\d{4})`, case-sensitive, no flags. -/
def dateFullRE : RE :=
  RE.grp 1 (reseq [RE.repC 1 2 isDigitChar, RE.plusC isWsChar, monthsRE,
                   RE.plusC isWsChar, RE.repC 4 4 isDigitChar])

/-- Lexicographic (code-point) order on strings, Python's `str <`. -/
def strLt : List Char → List Char → Bool
  | [], [] => false
  | [], _ :: _ => true
  | _ :: _, [] => false
  | a :: as2, b :: bs =>
    if a < b then true else if b < a then false else strLt as2 bs

/-- Insert into a strictly-ascending list, dropping duplicates. -/
def insertSD (x : List Char) : List (List Char) → List (List Char)
  | [] => [x]
  | y :: t =>
    if strLt x y then x :: y :: t
    else if x = y then y :: t
    else y :: insertSD x t

/-- `sorted(set(l))`: ascending distinct elements. -/
def sortDedup (l : List (List Char)) : List (List Char) := l.foldr insertSD []

/-- The banner filter applied to each collected date string. -/
def dateNotBanner (d : List Char) : Bool :=
  !containsSub (("Исследования").toList) d &&
    !containsSub (("подпис").toList) (lowerL d)

/-- `filtered_dates`: all `D Month YYYY` matches that pass the banner
filter. -/
def filteredDates (txt : List Char) : List (List Char) :=
  (findAllMatches dateFullRE txt).filter dateNotBanner

/-- Lines 636–653: collect every `D Month YYYY` occurrence page-wide, filter,
deduplicate-and-sort, and assign first/last (or the sole date as start). -/
def lastResortDates (txt : List Char) :
    Option (List Char) × Option (List Char) :=
  match sortDedup (filteredDates txt) with
  | [] => (none, none)
  | [x] => (some x, none)
  | x :: y :: rest => (some x, (y :: rest).getLast?)

/-! ## The description cleaner (lines 288–299 of `extract_description`) -/

/-- `Хакатоны\.рус.*?мир\s+хакатонов!` with `DOTALL|IGNORECASE`. -/
def bannerRE : RE :=
  reseq [LCI ("хакатоны.рус"), RE.lazyStarC (fun _ => true),
         LCI ("мир"), RE.plusC isWsChar, LCI ("хакатонов!")]

/-- `Регистрация открыта` (case-sensitive literal). -/
def regOpenRE : RE := L ("Регистрация открыта")

/-- `Подписаться|Подписывайся`. -/
def subscribeRE : RE := RE.alt (L ("Подписаться")) (L ("Подписывайся"))

/-- `.*Исследования 202[0-9]` (no flags: `.` stops at newlines). -/
def researchRE : RE :=
  reseq [RE.starC anyNoNl, L ("Исследования 202"), RE.cls isDigitChar]

/-- `АО «Инновационные интеграторы».*`. -/
def legalRE : RE :=
  reseq [L ("АО «Инновационные интеграторы»"), RE.starC anyNoNl]

/-- `Хочешь узнавать о новых хакатонах.*` with `DOTALL|IGNORECASE`. -/
def newsletterRE : RE :=
  reseq [LCI ("хочешь узнавать о новых хакатонах"), RE.starC (fun _ => true)]

/-- `re.sub(r'\n{3,}', '\n\n', s)`: every maximal newline run of length `k`
becomes `min k 2` newlines.  `nl` counts the pending newline run. -/
def collapseNlAux (nl : Nat) : List Char → List Char
  | [] => List.replicate (min nl 2) '\n'
  | c :: t =>
    if c = '\n' then collapseNlAux (nl + 1) t
    else List.replicate (min nl 2) '\n' ++ c :: collapseNlAux 0 t

def collapseNl (l : List Char) : List Char := collapseNlAux 0 l

/-- The newline-collapsing-and-trimming tail of the cleaner. -/
def collapseStrip (s : List Char) : List Char := pyStrip (collapseNl s)

/-- The cleaning step applied to a non-empty reconstructed description:
six boilerplate removals in source order, then newline collapsing, then
`strip()`. -/
def cleanDescription (s : List Char) : List Char :=
  if s.isEmpty then s
  else
    let d1 := subAll bannerRE [] s
    let d2 := subAll regOpenRE [] d1
    let d3 := subAll subscribeRE [] d2
    let d4 := subAll researchRE [] d3
    let d5 := subAll legalRE [] d4
    let d6 := subAll newsletterRE [] d5
    collapseStrip d6

/-! ## The structured text reconstructor (`extract_text_with_structure`)

The DOM is modelled with tags, the `class` attribute (the only attribute the
walker reads) and children.  Equality of nodes is structural, which is
exactly BeautifulSoup's `Tag.__eq__` (same name, same attributes, same
contents, recursively); Python's `list.index` finds the first element equal
in this sense. -/

inductive HNode where
  | text (s : String)
  | elem (tag : String) (classes : List String) (children : List HNode)

mutual

/-- Structural node equality, mirroring `Tag.__eq__`/`NavigableString.__eq__`
of BeautifulSoup. -/
def HNode.beq : HNode → HNode → Bool
  | .text a, .text b => a == b
  | .elem t1 c1 ch1, .elem t2 c2 ch2 =>
    t1 == t2 && c1 == c2 && HNode.beqList ch1 ch2
  | _, _ => false

def HNode.beqList : List HNode → List HNode → Bool
  | [], [] => true
  | a :: as2, b :: bs => HNode.beq a b && HNode.beqList as2 bs
  | _, _ => false

end

instance : BEq HNode := ⟨HNode.beq⟩

/-- Is the node an `li` tag? (`find_all('li', recursive=False)`). -/
def isLiNode : HNode → Bool
  | .elem t _ _ => t = "li"
  | _ => false

def liChildrenOf (ch : List HNode) : List HNode := ch.filter isLiNode

/-- The navigation/footer pruning test:
`node.get('class') and any(x in ' '.join(classes).lower() for x in [...])`. -/
def classesPruned (classes : List String) : Bool :=
  !classes.isEmpty &&
    ((["navigation", "nav", "footer", "header"] : List String).any
      (fun m => containsSub m.toList (lowerL (String.intercalate " " classes).toList)))

def blockTags : List String :=
  ["p", "div", "section", "article", "h1", "h2", "h3", "h4", "h5", "h6"]

def pyStripS (s : String) : String := String.mk (pyStrip s.toList)

mutual

/-- `extract_text_with_structure(node)`, with the node's DOM parent made
explicit (the Python code reads it from `node.parent`). -/
def extractTWS (parent : Option HNode) : HNode → String
  | .text s => if pyStrip s.toList ≠ [] then String.mk (pyStrip s.toList) else ""
  | .elem tag classes children =>
    if classesPruned classes then ""
    else if tag = "li" then
      let pref : String :=
        match parent with
        | some (.elem ("ul") _ _) => "- "
        | some (.elem ("ol") _ pch) =>
          toString ((liChildrenOf pch).indexOf (.elem tag classes children) + 1) ++ ". "
        | _ => "- "
      let itemText := pyStripS (String.intercalate " "
        (extractTWSList (.elem tag classes children) children))
      if itemText ≠ "" then pref ++ itemText else ""
    else if blockTags.contains tag then
      let ct := (extractTWSList (.elem tag classes children) children).filter
        (fun s => s ≠ "")
      if ct ≠ [] then pyStripS (String.intercalate " " ct) else ""
    else if tag = "ul" ∨ tag = "ol" then
      let items := (extractTWSLiList (.elem tag classes children) children).filter
        (fun s => s ≠ "")
      if items ≠ [] then String.intercalate "\n" items else ""
    else
      pyStripS (String.intercalate " "
        ((extractTWSList (.elem tag classes children) children).filter
          (fun s => s ≠ "")))

/-- The extractions of all children (the `for child in node.children`
traversals). -/
def extractTWSList (parentNode : HNode) : List HNode → List String
  | [] => []
  | c :: t => extractTWS (some parentNode) c :: extractTWSList parentNode t

/-- The extractions of the `li` children only
(`for item in node.find_all('li', recursive=False)`). -/
def extractTWSLiList (parentNode : HNode) : List HNode → List String
  | [] => []
  | c :: t =>
    if isLiNode c then
      extractTWS (some parentNode) c :: extractTWSLiList parentNode t
    else extractTWSLiList parentNode t

end

/-! ## The per-page loop of `parse_hackathons_page` (lines 840–872)

The body of the loop (building `basic_info` and calling
`parse_hackathon_details`) either returns a record or raises; an outcome is
modelled as `Except`.  The loop appends records whose name is truthy and the
`except Exception: continue` clause skips a raising page. -/

/-- Python truthiness of `detailed_info["name"]`. -/
def nameTruthy (r : HRecord) : Bool :=
  match r.name with
  | some s => !s.isEmpty
  | none => false

def processLinks : List (Except (List Char) HRecord) → List HRecord
  | [] => []
  | Except.error _ :: rest => processLinks rest
  | Except.ok r :: rest =>
    if nameTruthy r then r :: processLinks rest else processLinks rest

/-- Writing the extracted prize into the record; no match leaves the field
as it was (null). -/
def applyPrize (r : HRecord) (txt : List Char) : HRecord :=
  match extractPrizeAmount txt with
  | some q => { r with amount_money := some q }
  | none => r

/-! ## The remaining field extractors of `parse_hackathon_details`

The registration-deadline extractor (lines 361–395 and the whole-text
fallback 492–521), the event-date extractor (lines 397–653) and the
online/offline format detector (lines 701–725), each modelled end to end so
that "the extractor finds no match" is a statement about the complete
cascade the source runs for that field.  Every extractor is a total
function: assignment of a found value is `setIfFound`, so a `none` result
provably leaves the field exactly as it was. -/

/-- Python field assignment under `if match:`: a found value overwrites the
field, no find leaves it untouched. -/
def setIfFound (old found : Option (List Char)) : Option (List Char) :=
  match found with
  | some v => some v
  | none => old

/-- The `(?:января|…|декабря)` alternation under `re.IGNORECASE`. -/
def monthsCI : RE := realts (ruMonths.map LCI)

/-- `\d{1,2}\s+{months}` (day and month), case-insensitive months. -/
def dmCI : RE := reseq [RE.repC 1 2 isDigitChar, RE.plusC isWsChar, monthsCI]

/-- `\d{1,2}\s+{months}\s+\d{4}` (full date), case-insensitive months. -/
def dmyCI : RE :=
  reseq [RE.repC 1 2 isDigitChar, RE.plusC isWsChar, monthsCI,
         RE.plusC isWsChar, RE.repC 4 4 isDigitChar]

/-- `регистрация\s+до\s+(\d{1,2}\s+{months}\s+\d{4})`, `re.IGNORECASE`
(lines 372 and 493). -/
def regWithYearRE : RE :=
  reseq [LCI ("регистрация"), RE.plusC isWsChar, LCI ("до"),
         RE.plusC isWsChar, RE.grp 1 dmyCI]

/-- `регистрация\s+до\s+(\d{1,2}\s+{months})`, `re.IGNORECASE` (lines 378
and 514). -/
def regNoYearRE : RE :=
  reseq [LCI ("регистрация"), RE.plusC isWsChar, LCI ("до"),
         RE.plusC isWsChar, RE.grp 1 dmCI]

/-- Lines 378–394: the no-year pattern inside one registration div; a year
found near the match (`\b(202\d|203\d)\b` on the div text) or the current
year is appended.  The banner filter on the captured group is the same
`"Исследования"`/`"подпис"` test as everywhere else (`dateNotBanner`). -/
def regDivSearchB (divText : List Char) (cur : Nat) : Option (List Char) :=
  match reSearch regNoYearRE divText with
  | some mi =>
    let g := (capGet mi.caps 1).getD []
    if dateNotBanner g then
      some (g ++ ' ' :: ((findYearTokB divText).getD ((toString cur).toList)))
    else none
  | none => none

/-- Lines 372–394: one registration div.  The with-year pattern wins if it
matches and passes the filter; a filtered-out or absent match falls through
to the no-year pattern of the same div. -/
def regDivSearch (divText : List Char) (cur : Nat) : Option (List Char) :=
  match reSearch regWithYearRE divText with
  | some mi =>
    let g := (capGet mi.caps 1).getD []
    if dateNotBanner g then some g else regDivSearchB divText cur
  | none => regDivSearchB divText cur

/-- The `for div in registration_divs` loop: first div that yields a date
breaks the loop. -/
def regDivsLoop (cur : Nat) : List (List Char) → Option (List Char)
  | [] => none
  | d :: rest =>
    match regDivSearch d cur with
    | some v => some v
    | none => regDivsLoop cur rest

/-- Lines 492–521: the whole-text fallback.  A with-year match (filter
passing) has its year replaced by the `202\d|203\d` token of the hackathon
name when the two differ; otherwise the no-year pattern appends the current
year. -/
def regTextPass (allText name : List Char) (cur : Nat) : Option (List Char) :=
  let withYear : Option (List Char) :=
    match reSearch regWithYearRE allText with
    | some mi =>
      let g := (capGet mi.caps 1).getD []
      if dateNotBanner g then
        some (match findYearTok name with
              | some ey =>
                match findYearTokB g with
                | some yd => if yd ≠ ey then subYearAllB ey g else g
                | none => g
              | none => g)
      else none
    | none => none
  match withYear with
  | some v => some v
  | none =>
    match reSearch regNoYearRE allText with
    | some mi =>
      let g := (capGet mi.caps 1).getD []
      if dateNotBanner g then some (g ++ ' ' :: (toString cur).toList)
      else none
    | none => none

/-- The complete `end_of_registration` extractor: the div pass over the
divs whose lowercased text contains `"регистрация до"` (lines 361–395),
then the whole-text pass (lines 492–521). -/
def extractRegistration (divTexts : List (List Char)) (allText name : List Char)
    (cur : Nat) : Option (List Char) :=
  match regDivsLoop cur (divTexts.filter
      (fun d => containsSub (("регистрация до").toList) (lowerL d))) with
  | some v => some v
  | none => regTextPass allText name cur

/-- Writing the extracted registration deadline into the record. -/
def applyRegistration (r : HRecord) (divTexts : List (List Char))
    (allText : List Char) (cur : Nat) : HRecord :=
  let v := extractRegistration divTexts allText (r.name.getD []) cur
  { r with end_of_registration := setIfFound r.end_of_registration v }

/-- `дата\s+проведения[^:]*:\s*`, the shared head of the event-date
patterns, `re.IGNORECASE`. -/
def dpHeadRE : RE :=
  reseq [LCI ("дата"), RE.plusC isWsChar, LCI ("проведения"),
         RE.starC (fun c => c != ':'), L (":"), RE.starC isWsChar]

/-- The `[-—–]` dash class. -/
def isDashChar (c : Char) : Bool := c == '-' || c == '—' || c == '–'

/-- Line 411: `(\d{1,2})\s*[-—–]\s*(\d{1,2})\s+({months})\s+(\d{4})` after
the head. -/
def evP1 : RE :=
  reseq [dpHeadRE, RE.grp 1 (RE.repC 1 2 isDigitChar), RE.starC isWsChar,
         RE.cls isDashChar, RE.starC isWsChar,
         RE.grp 2 (RE.repC 1 2 isDigitChar), RE.plusC isWsChar,
         RE.grp 3 monthsCI, RE.plusC isWsChar,
         RE.grp 4 (RE.repC 4 4 isDigitChar)]

/-- Line 419: the same range without a year. -/
def evPN1 : RE :=
  reseq [dpHeadRE, RE.grp 1 (RE.repC 1 2 isDigitChar), RE.starC isWsChar,
         RE.cls isDashChar, RE.starC isWsChar,
         RE.grp 2 (RE.repC 1 2 isDigitChar), RE.plusC isWsChar,
         RE.grp 3 monthsCI]

/-- Line 431: `с\s+(\d{1,2}\s+{months})\s+по\s+(\d{1,2}\s+{months}\s+\d{4})`
after the head. -/
def evP2 : RE :=
  reseq [dpHeadRE, LCI ("с"), RE.plusC isWsChar, RE.grp 1 dmCI,
         RE.plusC isWsChar, LCI ("по"), RE.plusC isWsChar, RE.grp 2 dmyCI]

/-- Line 445: both dates complete. -/
def evP3 : RE :=
  reseq [dpHeadRE, LCI ("с"), RE.plusC isWsChar, RE.grp 1 dmyCI,
         RE.plusC isWsChar, LCI ("по"), RE.plusC isWsChar, RE.grp 2 dmyCI]

/-- Line 452 (and, verbatim, the whole-text single-date pattern of line
532): `дата\s+проведения[^:]*:\s*(\d{1,2}\s+{months}\s+\d{4})`. -/
def evP4 : RE := reseq [dpHeadRE, RE.grp 1 dmyCI]

/-- Line 458: a single date without a year. -/
def evPN2 : RE := reseq [dpHeadRE, RE.grp 1 dmCI]

/-- Line 469:
`(\d{1,2}\s+{months})(?:,|\s+)(?:\d{1,2}:\d{2}-\d{1,2}:\d{2})`. -/
def evP5 : RE :=
  reseq [dpHeadRE, RE.grp 1 dmCI, RE.alt (L (",")) (RE.plusC isWsChar),
         RE.repC 1 2 isDigitChar, L (":"), RE.repC 2 2 isDigitChar,
         L ("-"), RE.repC 1 2 isDigitChar, L (":"),
         RE.repC 2 2 isDigitChar]

/-- `re.search(r'(\d{4})', s)`: the first run of four digits. -/
def d4RE : RE := RE.repC 4 4 isDigitChar

def findD4 (s : List Char) : Option (List Char) :=
  (reSearch d4RE s).map (fun mi => mi.matched)

def hasD4 (s : List Char) : Bool := (reSearch d4RE s).isSome

/-- Patterns 3–5 and the two no-year patterns of one event-date div (lines
445–483), reached when patterns 1–2 do not settle the div. -/
def eventDivSearchTail (divText : List Char) (cur : Nat) :
    Option (Option (List Char) × Option (List Char)) :=
  match reSearch evP3 divText with
  | some mi =>
    some (some ((capGet mi.caps 1).getD []), some ((capGet mi.caps 2).getD []))
  | none =>
    match reSearch evP4 divText with
    | some mi => some (some ((capGet mi.caps 1).getD []), none)
    | none =>
      match reSearch evPN2 divText with
      | some mi =>
        some (some (((capGet mi.caps 1).getD []) ++
          ' ' :: (toString cur).toList), none)
      | none =>
        match reSearch evP5 divText with
        | some mi =>
          some (some (((capGet mi.caps 1).getD []) ++
            ' ' :: ((findYearTokB divText).getD ((toString cur).toList))), none)
        | none => none

/-- One event-date div (lines 409–483): the seven patterns in source
order.  Pattern 2 only breaks when a `\d{4}` year is found in its end
date (it always is, but the source guards it), otherwise the later
patterns of the same div are tried. -/
def eventDivSearch (divText : List Char) (cur : Nat) :
    Option (Option (List Char) × Option (List Char)) :=
  match reSearch evP1 divText with
  | some mi =>
    let d1 := (capGet mi.caps 1).getD []
    let d2 := (capGet mi.caps 2).getD []
    let mo := (capGet mi.caps 3).getD []
    let y := (capGet mi.caps 4).getD []
    some (some (d1 ++ ' ' :: mo ++ ' ' :: y), some (d2 ++ ' ' :: mo ++ ' ' :: y))
  | none =>
    match reSearch evPN1 divText with
    | some mi =>
      let d1 := (capGet mi.caps 1).getD []
      let d2 := (capGet mi.caps 2).getD []
      let mo := (capGet mi.caps 3).getD []
      let y := (toString cur).toList
      some (some (d1 ++ ' ' :: mo ++ ' ' :: y), some (d2 ++ ' ' :: mo ++ ' ' :: y))
    | none =>
      match reSearch evP2 divText with
      | some mi =>
        let s := (capGet mi.caps 1).getD []
        let e := (capGet mi.caps 2).getD []
        match findD4 e with
        | some y => some (some (s ++ ' ' :: y), some e)
        | none => eventDivSearchTail divText cur
      | none => eventDivSearchTail divText cur

/-- The `for div in event_date_divs` loop: first div settled by any of its
patterns breaks the loop. -/
def eventDivsLoop (cur : Nat) : List (List Char) →
    Option (Option (List Char) × Option (List Char))
  | [] => none
  | d :: rest =>
    match eventDivSearch d cur with
    | some p => some p
    | none => eventDivsLoop cur rest

/-- Line 527:
`дата\s+проведения[^:]*:\s*(?:с\s+)?(dmy)(?:\s*[-—–]\s*|\s+по\s+)(dmy)`. -/
def wtRangeRE : RE :=
  reseq [dpHeadRE, RE.opt (reseq [LCI ("с"), RE.plusC isWsChar]),
         RE.grp 1 dmyCI,
         RE.alt (reseq [RE.starC isWsChar, RE.cls isDashChar, RE.starC isWsChar])
                (reseq [RE.plusC isWsChar, LCI ("по"), RE.plusC isWsChar]),
         RE.grp 2 dmyCI]

/-- Lines 525–535: the whole-text event-date pass — the range pattern, else
the single-date pattern (which is textually `evP4`). -/
def wholeTextPass (allText : List Char) :
    Option (List Char × Option (List Char)) :=
  match reSearch wtRangeRE allText with
  | some mi =>
    some ((capGet mi.caps 1).getD [], some ((capGet mi.caps 2).getD []))
  | none =>
    match reSearch evP4 allText with
    | some mi => some ((capGet mi.caps 1).getD [], none)
    | none => none

/-- How a generic `date_patterns` entry is dispatched: by its number of
groups (lines 557–592). -/
inductive GPKind where
  | one
  | two
  | four

/-- Line 541: `(?:мероприятие|хакатон|соревнование)\s+(?:пройдет|состоится)`
followed by a dashed range with year, all in one group. -/
def gpRE1 : RE :=
  reseq [realts [LCI ("мероприятие"), LCI ("хакатон"), LCI ("соревнование")],
         RE.plusC isWsChar, realts [LCI ("пройдет"), LCI ("состоится")],
         RE.plusC isWsChar,
         RE.grp 1 (reseq [RE.repC 1 2 isDigitChar, RE.cls isDashChar,
                          RE.repC 1 2 isDigitChar, RE.plusC isWsChar, monthsCI,
                          RE.plusC isWsChar, RE.repC 4 4 isDigitChar])]

/-- Line 542: the same head with a single full date in one group. -/
def gpRE2 : RE :=
  reseq [realts [LCI ("мероприятие"), LCI ("хакатон"), LCI ("соревнование")],
         RE.plusC isWsChar, realts [LCI ("пройдет"), LCI ("состоится")],
         RE.plusC isWsChar, RE.grp 1 dmyCI]

/-- Line 543: `(?:с|c)\s+(dm)\s+(?:по|до)\s+(dmy)` (Cyrillic and Latin
letter c). -/
def gpRE3 : RE :=
  reseq [RE.alt (LCI ("с")) (LCI ("c")), RE.plusC isWsChar, RE.grp 1 dmCI,
         RE.plusC isWsChar, RE.alt (LCI ("по")) (LCI ("до")),
         RE.plusC isWsChar, RE.grp 2 dmyCI]

/-- Line 544 (and, verbatim, the description range pattern of line 630):
`(\d{1,2})\s*[-—–]\s*(\d{1,2})\s+({months})\s+(\d{4})`. -/
def gpRE4 : RE :=
  reseq [RE.grp 1 (RE.repC 1 2 isDigitChar), RE.starC isWsChar,
         RE.cls isDashChar, RE.starC isWsChar,
         RE.grp 2 (RE.repC 1 2 isDigitChar), RE.plusC isWsChar,
         RE.grp 3 monthsCI, RE.plusC isWsChar,
         RE.grp 4 (RE.repC 4 4 isDigitChar)]

/-- The `date_patterns` list of lines 540–545 with each pattern's dispatch
kind. -/
def genericDatePatterns : List (RE × GPKind) :=
  [(gpRE1, GPKind.one), (gpRE2, GPKind.one),
   (gpRE3, GPKind.two), (gpRE4, GPKind.four)]

/-- Python `s.split(ch)`: every piece, empty pieces included. -/
def splitAllOn (ch : Char) : List Char → List (List Char)
  | [] => [[]]
  | c :: t =>
    if c = ch then [] :: splitAllOn ch t
    else
      match splitAllOn ch t with
      | h :: r => (c :: h) :: r
      | [] => [[c]]

/-- Python `s.split(' ', 1)` when it produces two pieces: the text before
the first space and the text after it. -/
def splitOnceSpace : List Char → Option (List Char × List Char)
  | [] => none
  | c :: t =>
    if c = ' ' then some ([], t)
    else
      match splitOnceSpace t with
      | some (a, b) => some (c :: a, b)
      | none => none

/-- `re.match`: the pattern anchored at the start of the string. -/
def matchAtStart (p : RE) (s : List Char) : Bool :=
  (mrun p s [] (fun rest cp => some (rest, cp))).isSome

/-- Line 564: `re.match(rf'\d+\s+{months}\s+\d{4}', rest)` — no flags, so
the month names are case-sensitive here. -/
def dmyMatchRE : RE :=
  reseq [RE.plusC isDigitChar, RE.plusC isWsChar, monthsRE,
         RE.plusC isWsChar, RE.repC 4 4 isDigitChar]

/-- Lines 558–571, the one-group handler: a group containing an ASCII `-`
is split into two days (when the split gives exactly two pieces, the rest
anchors on day-month-year, and a literal space separates day from
month-year; at a `\s+` matched by something other than a space the source
raises `ValueError`, aborting the record into the page loop's handler);
otherwise the group is the start date. -/
def gpHandlerOne (g1 : List Char) :
    Option (List Char) × Option (List Char) :=
  if containsSub (['-'] : List Char) g1 then
    match splitAllOn '-' g1 with
    | [p1, p2] =>
      let day1 := pyStrip p1
      let rest := pyStrip p2
      if matchAtStart dmyMatchRE rest then
        match splitOnceSpace rest with
        | some (_, monthYear) => (some (day1 ++ ' ' :: monthYear), some rest)
        | none => (none, none)
      else (none, none)
    | _ => (none, none)
  else (some g1, none)

/-- Lines 573–589, the two-group handler (guarded by `'по'` occurring in
the whole match): a start without a year borrows the end date's `\d{4}`. -/
def gpHandlerTwo (g0 g1 g2 : List Char) :
    Option (List Char) × Option (List Char) :=
  if containsSub (("по").toList) g0 then
    if !hasD4 g1 && hasD4 g2 then
      match findD4 g2 with
      | some y => (some (g1 ++ ' ' :: y), some g2)
      | none => (none, none)
    else (some g1, some g2)
  else (none, none)

/-- Lines 591–595, the four-group handler: day range, month, year. -/
def gpHandlerFour (d1 d2 mo y : List Char) :
    Option (List Char) × Option (List Char) :=
  (some (d1 ++ ' ' :: mo ++ ' ' :: y), some (d2 ++ ' ' :: mo ++ ' ' :: y))

/-- Lines 547–597: the generic-pattern loop.  A match failing the banner
filter moves to the next pattern; a passing match is dispatched on its
group count, and the loop breaks even when the handler assigns nothing. -/
def genericLoop (allText : List Char) :
    List (RE × GPKind) → Option (Option (List Char) × Option (List Char))
  | [] => none
  | (p, k) :: rest =>
    match reSearch p allText with
    | none => genericLoop allText rest
    | some mi =>
      if !dateNotBanner mi.matched then genericLoop allText rest
      else
        some (match k with
          | GPKind.one => gpHandlerOne ((capGet mi.caps 1).getD [])
          | GPKind.two =>
            gpHandlerTwo mi.matched ((capGet mi.caps 1).getD [])
              ((capGet mi.caps 2).getD [])
          | GPKind.four =>
            gpHandlerFour ((capGet mi.caps 1).getD [])
              ((capGet mi.caps 2).getD []) ((capGet mi.caps 3).getD [])
              ((capGet mi.caps 4).getD []))

/-- Line 606: `пройд[её]т\s+с\s*(\d{1,2})\s+по\s+(\d{1,2})\s+({months})\s+(\d{4})`. -/
def descPA : RE :=
  reseq [LCI ("пройд"), RE.cls (fun c => ruLower c == 'е' || ruLower c == 'ё'),
         LCI ("т"), RE.plusC isWsChar, LCI ("с"), RE.starC isWsChar,
         RE.grp 1 (RE.repC 1 2 isDigitChar), RE.plusC isWsChar, LCI ("по"),
         RE.plusC isWsChar, RE.grp 2 (RE.repC 1 2 isDigitChar),
         RE.plusC isWsChar, RE.grp 3 monthsCI, RE.plusC isWsChar,
         RE.grp 4 (RE.repC 4 4 isDigitChar)]

/-- Line 612:
`(?:проходит|пройдет|состоится)\s+с\s+(\d{1,2}\s+{months}(?:\s+\d{4})?)\s+(?:по|до)\s+(dmy)`. -/
def descPB : RE :=
  reseq [realts [LCI ("проходит"), LCI ("пройдет"), LCI ("состоится")],
         RE.plusC isWsChar, LCI ("с"), RE.plusC isWsChar,
         RE.grp 1 (reseq [RE.repC 1 2 isDigitChar, RE.plusC isWsChar, monthsCI,
                          RE.opt (reseq [RE.plusC isWsChar,
                                         RE.repC 4 4 isDigitChar])]),
         RE.plusC isWsChar, realts [LCI ("по"), LCI ("до")],
         RE.plusC isWsChar, RE.grp 2 dmyCI]

/-- Lines 601–633: the description patterns.  The first two overwrite both
fields outright; the dashed-range pattern (textually `gpRE4`) only fires
when both fields are still empty after them. -/
def descPass (dtext : List Char)
    (st : Option (List Char) × Option (List Char)) :
    Option (List Char) × Option (List Char) :=
  let st1 :=
    match reSearch descPA dtext with
    | some mi =>
      gpHandlerFour ((capGet mi.caps 1).getD []) ((capGet mi.caps 2).getD [])
        ((capGet mi.caps 3).getD []) ((capGet mi.caps 4).getD [])
    | none =>
      match reSearch descPB dtext with
      | some mi =>
        let s := (capGet mi.caps 1).getD []
        let e := (capGet mi.caps 2).getD []
        if !hasD4 s then
          match findD4 e with
          | some y => (some (s ++ ' ' :: y), some e)
          | none => st
        else (some s, some e)
      | none => st
  if st1.1.isNone && st1.2.isNone then
    match reSearch gpRE4 dtext with
    | some mi =>
      gpHandlerFour ((capGet mi.caps 1).getD []) ((capGet mi.caps 2).getD [])
        ((capGet mi.caps 3).getD []) ((capGet mi.caps 4).getD [])
    | none => st1
  else st1

/-- The complete `start_of_hack`/`end_of_hack` extractor (lines 397–653):
div pass over divs containing `"дата проведения"`, whole-text pass,
generic-pattern loop, description patterns, last-resort date collection.
Each later stage runs only under the source's emptiness guards. -/
def extractEventDates (divTexts : List (List Char)) (allText : List Char)
    (desc : Option (List Char)) (cur : Nat) :
    Option (List Char) × Option (List Char) :=
  let st0 :=
    match eventDivsLoop cur (divTexts.filter
        (fun d => containsSub (("дата проведения").toList) (lowerL d))) with
    | some p => p
    | none => (none, none)
  let st1 :=
    if st0.1.isSome then st0
    else
      match wholeTextPass allText with
      | some (s, e) => (some s, setIfFound st0.2 e)
      | none => st0
  let st2 :=
    if st1.1.isSome then st1
    else
      match genericLoop allText genericDatePatterns with
      | some (s, e) => (setIfFound st1.1 s, setIfFound st1.2 e)
      | none => st1
  let st3 :=
    match desc with
    | some dtext =>
      if (st2.1.isNone || st2.2.isNone) && !dtext.isEmpty then
        descPass dtext st2
      else st2
    | none => st2
  if st3.1.isNone && st3.2.isNone then lastResortDates allText else st3

/-- Writing the extracted event dates into the record (the description
passed to the extractor is the record's own `task_description`, as in the
source). -/
def applyEventDates (r : HRecord) (divTexts : List (List Char))
    (allText : List Char) (cur : Nat) : HRecord :=
  let p := extractEventDates divTexts allText r.task_description cur
  { r with start_of_hack := setIfFound r.start_of_hack p.1,
           end_of_hack := setIfFound r.end_of_hack p.2 }

/-- Line 706: `формат\s*:\s*(онлайн|оффлайн|офлайн|online|offline)`,
`re.IGNORECASE`. -/
def formatRE : RE :=
  reseq [LCI ("формат"), RE.starC isWsChar, L (":"), RE.starC isWsChar,
         RE.grp 1 (realts [LCI ("онлайн"), LCI ("оффлайн"), LCI ("офлайн"),
                           LCI ("online"), LCI ("offline")])]

/-- Line 715: `место\s+проведения\s*:`. -/
def mestoRE : RE :=
  reseq [LCI ("место"), RE.plusC isWsChar, LCI ("проведения"),
         RE.starC isWsChar, L (":")]

/-- One `\b…\b` alternative: literal segments (given lowercased) separated
by `\s+`.  Returns the rest of the input after a match at the head. -/
def matchSegsCI : List (List Char) → List Char → Option (List Char)
  | [], s => some s
  | [w], s => if isPrefixOfCI w s then some (s.drop w.length) else none
  | w :: ws, s =>
    if isPrefixOfCI w s then
      let s1 := s.drop w.length
      let m := maxRun isWsChar s1
      if m = 0 then none else matchSegsCI ws (s1.drop m)
    else none

/-- `re.search` success of `\b(alt|…|alt)\b` with `re.IGNORECASE`: at some
position whose previous character is not a word character, some alternative
matches and the character after it (if any) is not a word character.  Every
alternative begins and ends with a word character, so this is exactly the
boundary condition; `boundaryOk` is the same check the year-token scanner
uses. -/
def searchWordBounded (alts : List (List (List Char))) :
    Option Char → List Char → Bool
  | _, [] => false
  | prev, c :: t =>
    (alts.any (fun a =>
        match matchSegsCI a (c :: t) with
        | some rest => boundaryOk prev rest
        | none => false)) ||
      searchWordBounded alts (some c) t

def hasWordBounded (alts : List (List (List Char))) (s : List Char) : Bool :=
  searchWordBounded alts none s

/-- Line 717: `\b(москва|санкт-петербург|казань|новосибирск|екатеринбург)\b`. -/
def cityAlts : List (List (List Char)) :=
  [[("москва").toList], [("санкт-петербург").toList], [("казань").toList],
   [("новосибирск").toList], [("екатеринбург").toList]]

/-- Line 722: `\b(?:онлайн|online|виртуал|дистанц)\b`. -/
def onlineAlts : List (List (List Char)) :=
  [[("онлайн").toList], [("online").toList], [("виртуал").toList],
   [("дистанц").toList]]

/-- Line 724: `\b(?:оффлайн|офлайн|offline|очн|место\s+проведения)\b`. -/
def offlineAlts : List (List (List Char)) :=
  [[("оффлайн").toList], [("офлайн").toList], [("offline").toList],
   [("очн").toList], [("место").toList, ("проведения").toList]]

/-- The format detector (lines 701–725): on the lowercased main-content
text an explicit `формат:` value, else a `место проведения:` mention, else
a known city; when the main div gives nothing, the general word-bounded
online/offline indicators over the whole page text. -/
def extractFormat (mainTextRaw : Option (List Char)) (allText : List Char) :
    Option (List Char) :=
  let stage1 : Option (List Char) :=
    match mainTextRaw with
    | none => none
    | some raw =>
      let mt := lowerL raw
      match reSearch formatRE mt with
      | some mi =>
        let g := lowerL ((capGet mi.caps 1).getD [])
        if containsSub (("онлайн").toList) g ||
            containsSub (("online").toList) g then
          some (("online").toList)
        else some (("offline").toList)
      | none =>
        if hasMatch mestoRE mt then some (("offline").toList)
        else if hasWordBounded cityAlts mt then some (("offline").toList)
        else none
  match stage1 with
  | some t => some t
  | none =>
    if hasWordBounded onlineAlts allText then some (("online").toList)
    else if hasWordBounded offlineAlts allText then some (("offline").toList)
    else none

/-- Writing the detected format into the record. -/
def applyFormat (r : HRecord) (mainTextRaw : Option (List Char))
    (allText : List Char) : HRecord :=
  { r with type := setIfFound r.type (extractFormat mainTextRaw allText) }

/-! ## The registration-division year defaults of the two modules (C9) -/

/-- `src/parse_hackathons.py` lines 384–391: a year near the
"регистрация до D Month" match, else the current year. -/
def regYearMain (divText : List Char) (cur : Nat) : List Char :=
  match findYearTokB divText with
  | some y => y
  | none => (toString cur).toList

/-- `src/utils/parse_hackathons.py` lines 196–208: a year near the match,
else a year in the hackathon name, else the current year + 1. -/
def regYearUtils (divText name : List Char) (cur : Nat) : List Char :=
  match findYearTokB divText with
  | some y => y
  | none =>
    match findYearTok name with
    | some y => y
    | none => (toString (cur + 1)).toList

/-! ## Derived forms used in the claim statements -/

/-- `parse_ru_date` applied to a nullable field (`parse_ru_date(None)` is
`None` via the `if not date_str` guard). -/
def parseField (o : Option (List Char)) : Option RuDate :=
  o.bind parse_ru_date

/-- Does a four-character string match `202\d|203\d` exactly? -/
def isYearStr (l : List Char) : Bool :=
  match l with
  | [a, b, c, d] => isYearDigits a b c d
  | _ => false

/-- The inner text of a list item: `" ".join(...)` over all children
(including empty extractions) followed by `strip()`. -/
def liItemText (node : HNode) : String :=
  match node with
  | .elem _ _ ch => pyStripS (String.intercalate " "
      (ch.map (fun c => extractTWS (some node) c)))
  | .text _ => ""

/-- An empty record used to build concrete instances. -/
def emptyRec : HRecord :=
  { name := none, task_description := none, start_of_registration := none,
    end_of_registration := none, start_of_hack := none, end_of_hack := none,
    amount_money := none, type := none, url := [] }

/-! # Helper lemmas -/

theorem dateLt_asymm {a b : RuDate} (h : dateLt a b = true) : dateLt b a = false := by
  rw [Bool.eq_false_iff]
  intro hba
  simp only [dateLt, Bool.or_eq_true, Bool.and_eq_true, decide_eq_true_eq] at h hba
  omega

theorem parse_ru_date_ne_nil {s : List Char} {d : RuDate}
    (h : parse_ru_date s = some d) : s ≠ [] := by
  intro hs
  subst hs
  simp [parse_ru_date] at h

theorem processLinks_append (xs ys : List (Except (List Char) HRecord)) :
    processLinks (xs ++ ys) = processLinks xs ++ processLinks ys := by
  induction xs with
  | nil => rfl
  | cons h t ih =>
    cases h with
    | error e => simpa [processLinks] using ih
    | ok r =>
      by_cases hn : nameTruthy r = true <;> simp [processLinks, hn, ih]

/-! # C10 — frame property of the year-rewriting phase -/

/-- C10: the final year-rewriting phase of `parse_hackathon_details`
modifies at most `end_of_registration`, `start_of_hack` and `end_of_hack`;
`name`, `task_description`, `start_of_registration`, `amount_money`, `type`
and `url` keep their values. -/
theorem yearRewrite_frame (r : HRecord) (cur : Nat) :
    (yearRewritePhase r cur).name = r.name ∧
    (yearRewritePhase r cur).task_description = r.task_description ∧
    (yearRewritePhase r cur).start_of_registration = r.start_of_registration ∧
    (yearRewritePhase r cur).amount_money = r.amount_money ∧
    (yearRewritePhase r cur).type = r.type ∧
    (yearRewritePhase r cur).url = r.url :=
  ⟨rfl, rfl, rfl, rfl, rfl, rfl⟩

/-! # C3 — the three cases of the chronology validation -/

/-- C3: when both event dates parse and the end is strictly before the
start, the validation swaps same-year pairs, nulls the end of cross-year
pairs more than 365 days apart, and swaps cross-year pairs within 365
days. -/
theorem validate_order_cases (r : HRecord) (s e : List Char) (ds de : RuDate)
    (hs : r.start_of_hack = some s) (he : r.end_of_hack = some e)
    (hps : parse_ru_date s = some ds) (hpe : parse_ru_date e = some de)
    (hlt : dateLt de ds = true) :
    (ds.year = de.year →
      validateChronology r =
        { r with start_of_hack := some e, end_of_hack := some s }) ∧
    (ds.year ≠ de.year → 365 < spanDaysAbs ds de →
      validateChronology r = { r with end_of_hack := none }) ∧
    (ds.year ≠ de.year → spanDaysAbs ds de ≤ 365 →
      validateChronology r =
        { r with start_of_hack := some e, end_of_hack := some s }) := by
  have hs0 : s ≠ [] := parse_ru_date_ne_nil hps
  have he0 : e ≠ [] := parse_ru_date_ne_nil hpe
  unfold validateChronology
  rw [hs, he]
  simp only [if_pos (And.intro hs0 he0), hps, hpe, hlt, if_true]
  refine ⟨fun hy => ?_, fun hy hsp => ?_, fun hy hsp => ?_⟩
  · simp [hy]
  · simp [hy, hsp]
  · simp only [if_neg hy, if_neg (show ¬ 365 < spanDaysAbs ds de by omega)]

/-- C3 witness: a concrete same-year reversed pair is swapped. -/
theorem validate_order_cases_witness :
    validateChronology
        { emptyRec with start_of_hack := some (("17 мая 2025").toList),
                        end_of_hack := some (("15 мая 2025").toList) } =
      { emptyRec with start_of_hack := some (("15 мая 2025").toList),
                      end_of_hack := some (("17 мая 2025").toList) } :=
  (validate_order_cases _ _ _ ⟨2025, 5, 17⟩ ⟨2025, 5, 15⟩
      rfl rfl (by decide) (by decide) (by decide)).1 rfl

/-! # C1 — the start ≤ end invariant -/

/-- C1 (amended): immediately after the chronology-validation step, any
record whose two event dates parse with equal years satisfies start ≤ end;
the claim as stated fails because the year rewriting runs afterwards and can
change one date's year (see the counterexample). -/
theorem validate_start_le_end (r : HRecord) (ds de : RuDate)
    (h1 : parseField (validateChronology r).start_of_hack = some ds)
    (h2 : parseField (validateChronology r).end_of_hack = some de)
    (hy : ds.year = de.year) : dateLe ds de = true := by
  rcases hstart : r.start_of_hack with _ | s
  · have hvr : validateChronology r = r := by
      simp only [validateChronology, hstart]
    rw [hvr, hstart] at h1
    simp [parseField] at h1
  rcases hend : r.end_of_hack with _ | e
  · have hvr : validateChronology r = r := by
      simp only [validateChronology, hstart, hend]
    rw [hvr, hend] at h2
    simp [parseField] at h2
  by_cases hne : s ≠ [] ∧ e ≠ []
  · rcases hps : parse_ru_date s with _ | ds0
    · have hvr : validateChronology r = r := by
        simp only [validateChronology, hstart, hend, if_pos hne, hps]
      rw [hvr, hstart] at h1
      simp [parseField, hps] at h1
    rcases hpe : parse_ru_date e with _ | de0
    · have hvr : validateChronology r = r := by
        simp only [validateChronology, hstart, hend, if_pos hne, hps, hpe]
      rw [hvr, hend] at h2
      simp [parseField, hpe] at h2
    by_cases hlt : dateLt de0 ds0 = true
    · by_cases hyy : ds0.year = de0.year
      · have hvr : validateChronology r =
            { r with start_of_hack := some e, end_of_hack := some s } := by
          simp only [validateChronology, hstart, hend, if_pos hne, hps, hpe,
            hlt, if_true, if_pos hyy]
        rw [hvr] at h1 h2
        simp only [parseField, Option.some_bind] at h1 h2
        rw [hpe] at h1
        rw [hps] at h2
        obtain rfl : de0 = ds := by injection h1
        obtain rfl : ds0 = de := by injection h2
        simp [dateLe, dateLt_asymm hlt]
      · by_cases hsp : 365 < spanDaysAbs ds0 de0
        · have hvr : validateChronology r = { r with end_of_hack := none } := by
            simp only [validateChronology, hstart, hend, if_pos hne, hps, hpe,
              hlt, if_true, if_neg hyy, if_pos hsp]
          rw [hvr] at h2
          simp [parseField] at h2
        · have hvr : validateChronology r =
              { r with start_of_hack := some e, end_of_hack := some s } := by
            simp only [validateChronology, hstart, hend, if_pos hne, hps, hpe,
              hlt, if_true, if_neg hyy, if_neg hsp]
          rw [hvr] at h1 h2
          simp only [parseField, Option.some_bind] at h1 h2
          rw [hpe] at h1
          rw [hps] at h2
          obtain rfl : de0 = ds := by injection h1
          obtain rfl : ds0 = de := by injection h2
          exact absurd hy.symm hyy
    · have hvr : validateChronology r = r := by
        simp only [validateChronology, hstart, hend, if_pos hne, hps, hpe]
        simp [hlt]
      rw [hvr, hstart] at h1
      rw [hvr, hend] at h2
      simp only [parseField, Option.some_bind] at h1 h2
      rw [hps] at h1
      rw [hpe] at h2
      obtain rfl : ds0 = ds := by injection h1
      obtain rfl : de0 = de := by injection h2
      simpa [dateLe] using hlt
  · have hvr : validateChronology r = r := by
      simp only [validateChronology, hstart, hend, if_neg hne]
    rcases Decidable.not_and_iff_or_not.mp hne with hn | hn
    · have hsnil : s = [] := by simpa using hn
      rw [hvr, hstart] at h1
      subst hsnil
      simp [parseField, parse_ru_date] at h1
    · have henil : e = [] := by simpa using hn
      rw [hvr, hend] at h2
      subst henil
      simp [parseField, parse_ru_date] at h2

/-- C1 witness: a concrete record passing validation with equal years. -/
theorem validate_start_le_end_witness : dateLe ⟨2025, 5, 15⟩ ⟨2025, 5, 17⟩ = true :=
  validate_start_le_end
    { emptyRec with start_of_hack := some (("15 мая 2025").toList),
                    end_of_hack := some (("17 мая 2025").toList) }
    ⟨2025, 5, 15⟩ ⟨2025, 5, 17⟩ (by decide) (by decide) rfl

/-- The C1 counterexample record: a cross-year forward pair
("20 мая 2024" → "15 мая 2025") with the name carrying 2025. -/
def cexC1rec : HRecord :=
  { emptyRec with name := some (("Хакатон 2025").toList),
                  start_of_hack := some (("20 мая 2024").toList),
                  end_of_hack := some (("15 мая 2025").toList) }

/-- C1 counterexample: after both reconciliation steps (validation, then
year rewriting) the record has both dates present with the same year, yet
start > end: validation saw 2024 < 2025 and did nothing, then the year
rewrite turned the start into "20 мая 2025". -/
theorem validate_start_le_end_cex :
    parseField (reconcileMain cexC1rec 2026).start_of_hack =
        some ⟨2025, 5, 20⟩ ∧
    parseField (reconcileMain cexC1rec 2026).end_of_hack =
        some ⟨2025, 5, 15⟩ ∧
    dateLe ⟨2025, 5, 20⟩ ⟨2025, 5, 15⟩ = false :=
  ⟨by decide, by decide, by decide⟩

/-! # C2 — expected-year priority -/

/-- C2 (amended): the expected year is (1) the first `202x`/`203x` token in
the record's name, else (2) such a token in the event-start string, then the
event-end string — the registration-deadline string is never consulted —
else (3) the current calendar year. -/
theorem expectedYear_priority (name : List Char) (sOpt eOpt : Option (List Char))
    (cur : Nat) :
    (∀ y, findYearTok name = some y →
      expectedYearMain name sOpt eOpt cur = y) ∧
    (findYearTok name = none → ∀ y, sOpt.bind findYearTok = some y →
      expectedYearMain name sOpt eOpt cur = y) ∧
    (findYearTok name = none → sOpt.bind findYearTok = none →
      ∀ y, eOpt.bind findYearTok = some y →
      expectedYearMain name sOpt eOpt cur = y) ∧
    (findYearTok name = none → sOpt.bind findYearTok = none →
      eOpt.bind findYearTok = none →
      expectedYearMain name sOpt eOpt cur = (toString cur).toList) := by
  refine ⟨?_, ?_, ?_, ?_⟩
  · intro y hy
    simp only [expectedYearMain, hy]
  · intro hn y hsy
    simp only [expectedYearMain, hn, hsy]
  · intro hn hsn y hey
    simp only [expectedYearMain, hn, hsn, hey]
  · intro hn hsn hen
    simp only [expectedYearMain, hn, hsn, hen]

/-- C2 witness: name year wins over a start-date year. -/
theorem expectedYear_priority_witness :
    expectedYearMain (("Хакатон 2027").toList)
        (some (("15 мая 2025").toList)) none 2026 = ("2027").toList :=
  (expectedYear_priority (("Хакатон 2027").toList)
      (some (("15 мая 2025").toList)) none 2026).1 _ (by decide)

/-- The C2 counterexample record: no year in the name, year 2024 in the
registration deadline, year 2025 in the event start. -/
def cexC2rec : HRecord :=
  { emptyRec with name := some (("Хакатон").toList),
                  end_of_registration := some (("10 мая 2024").toList),
                  start_of_hack := some (("15 мая 2025").toList) }

/-- C2 counterexample: the claim predicts priority to the registration year
2024, but the code never consults the registration string: the expected year
is 2025 (from the event start) and the registration deadline itself is
rewritten to 2025. -/
theorem expectedYear_priority_cex :
    expectedYearMain (("Хакатон").toList) (some (("15 мая 2025").toList))
        none 2026 = ("2025").toList ∧
    findYearTok (("10 мая 2024").toList) = some (("2024").toList) ∧
    ("2025").toList ≠ ("2024").toList ∧
    (yearRewritePhase cexC2rec 2026).end_of_registration =
      some (("10 мая 2025").toList) :=
  ⟨by decide, by decide, by decide, by decide⟩

/-! # C8 — error containment in the page loop -/

/-- C8: an exception raised while processing one page (an `error` outcome)
is absorbed at the loop boundary, leaving the records of the surrounding
pages untouched, and each field extractor of `parse_hackathon_details` —
the prize cascade, the registration-deadline extractor, the event-date
extractor and the format detector, every one modelled as a total function
over its complete pattern cascade, so none can raise — leaves its record
field untouched (null in the source, where nothing has written it before)
whenever its cascade finds no match. -/
theorem pageLoop_errors_skipped :
    (∀ xs ys (e : List Char),
      processLinks (xs ++ Except.error e :: ys) =
        processLinks xs ++ processLinks ys) ∧
    (∀ r txt, extractPrizeAmount txt = none → applyPrize r txt = r) ∧
    (∀ r divTexts allText cur,
      extractRegistration divTexts allText (r.name.getD []) cur = none →
        applyRegistration r divTexts allText cur = r) ∧
    (∀ r divTexts allText cur,
      extractEventDates divTexts allText r.task_description cur =
          (none, none) →
        applyEventDates r divTexts allText cur = r) ∧
    (∀ r mt allText,
      extractFormat mt allText = none → applyFormat r mt allText = r) := by
  refine ⟨?_, ?_, ?_, ?_, ?_⟩
  · intro xs ys e
    rw [processLinks_append]
    rfl
  · intro r txt h
    unfold applyPrize
    rw [h]
  · intro r divTexts allText cur h
    unfold applyRegistration
    rw [h]
    rfl
  · intro r divTexts allText cur h
    unfold applyEventDates
    rw [h]
    rfl
  · intro r mt allText h
    unfold applyFormat
    rw [h]
    rfl

/-- C8 witness: a concrete failing page between two good ones, and each of
the four field extractors applied to matchless input. -/
theorem pageLoop_errors_skipped_witness :
    processLinks [Except.ok { emptyRec with name := some [' '] },
        Except.error [], Except.ok { emptyRec with name := some [' '] }] =
      processLinks [Except.ok { emptyRec with name := some [' '] }] ++
        processLinks [Except.ok { emptyRec with name := some [' '] }] ∧
    applyPrize emptyRec [] = emptyRec ∧
    applyRegistration emptyRec [] [] 2026 = emptyRec ∧
    applyEventDates emptyRec [] [] 2026 = emptyRec ∧
    applyFormat emptyRec none [] = emptyRec :=
  ⟨pageLoop_errors_skipped.1 [Except.ok { emptyRec with name := some [' '] }]
      [Except.ok { emptyRec with name := some [' '] }] [],
   pageLoop_errors_skipped.2.1 emptyRec [] (by decide),
   pageLoop_errors_skipped.2.2.1 emptyRec [] [] 2026 (by decide),
   pageLoop_errors_skipped.2.2.2.1 emptyRec [] [] 2026 (by decide),
   pageLoop_errors_skipped.2.2.2.2 emptyRec none [] (by decide)⟩

/-! # C4 — prize amount normalization -/

theorem prizeLoop_of_firstMatch (txt : List Char) (ps : List (RE × Bool))
    (mi : MatchInfo) (useU : Bool) (q : ℚ)
    (h1 : firstPrizeMatch txt ps = some (mi, useU))
    (h2 : pyFloatQ (normalizeAmount ((capGet mi.caps 1).getD [])) = some q) :
    prizeLoop txt ps =
      some (if mentionsFirstPlace mi.matched && hasSecondAndThird txt
            then (q * prizeMult (if useU then capGet mi.caps 2 else none)) * 2
            else q * prizeMult (if useU then capGet mi.caps 2 else none)) := by
  induction ps with
  | nil => simp [firstPrizeMatch] at h1
  | cons p rest ih =>
    obtain ⟨pre, u⟩ := p
    rcases hsearch : reSearch pre txt with _ | mi0
    · simp only [firstPrizeMatch, hsearch] at h1
      simp only [prizeLoop, hsearch]
      exact ih h1
    · simp only [firstPrizeMatch, hsearch, Option.some.injEq, Prod.mk.injEq] at h1
      obtain ⟨rfl, rfl⟩ := h1
      simp only [prizeLoop, hsearch, h2]

/-- C4 (amended): for the first pattern of the cascade that matches, with a
float-parsable amount `q`: a unit token containing `млн` gives `q × 10⁶`, one
containing `тыс` gives `q × 10³`, and no unit token gives `q` — each further
multiplied by 2 when the matched span mentions first place and the page also
mentions second and third places (the doubling heuristic the original claim
omits, refuted by the counterexample). -/
theorem prize_unit_multipliers (txt : List Char) (mi : MatchInfo)
    (useU : Bool) (q : ℚ)
    (hm : firstPrizeMatch txt prizePatterns = some (mi, useU))
    (hq : pyFloatQ (normalizeAmount ((capGet mi.caps 1).getD [])) = some q) :
    (∀ g, (if useU then capGet mi.caps 2 else none) = some g →
      containsSub (("млн").toList) (lowerL g) = true →
      extractPrizeAmount txt = some (q * 1000000 *
        (if mentionsFirstPlace mi.matched && hasSecondAndThird txt then 2 else 1))) ∧
    (∀ g, (if useU then capGet mi.caps 2 else none) = some g →
      containsSub (("млн").toList) (lowerL g) = false →
      containsSub (("тыс").toList) (lowerL g) = true →
      extractPrizeAmount txt = some (q * 1000 *
        (if mentionsFirstPlace mi.matched && hasSecondAndThird txt then 2 else 1))) ∧
    ((if useU then capGet mi.caps 2 else none) = none →
      extractPrizeAmount txt = some (q *
        (if mentionsFirstPlace mi.matched && hasSecondAndThird txt then 2 else 1))) := by
  have h := prizeLoop_of_firstMatch txt prizePatterns mi useU q hm hq
  refine ⟨?_, ?_, ?_⟩
  · intro g hg hmln
    unfold extractPrizeAmount
    rw [h, hg]
    have hmln2 : containsSub (['м', 'л', 'н'] : List Char) (lowerL g) = true := hmln
    have hmult : prizeMult (some g) = 1000000 := by simp [prizeMult, hmln2]
    rw [hmult]
    by_cases hc : (mentionsFirstPlace mi.matched && hasSecondAndThird txt) = true
    · simp only [if_pos hc]
    · simp only [if_neg hc, mul_one]
  · intro g hg hmln htys
    unfold extractPrizeAmount
    rw [h, hg]
    have hmln2 : containsSub (['м', 'л', 'н'] : List Char) (lowerL g) = false := hmln
    have htys2 : containsSub (['т', 'ы', 'с'] : List Char) (lowerL g) = true := htys
    have hmult : prizeMult (some g) = 1000 := by simp [prizeMult, hmln2, htys2]
    rw [hmult]
    by_cases hc : (mentionsFirstPlace mi.matched && hasSecondAndThird txt) = true
    · simp only [if_pos hc]
    · simp only [if_neg hc, mul_one]
  · intro hg
    unfold extractPrizeAmount
    rw [h, hg]
    have hmult : prizeMult none = 1 := rfl
    rw [hmult]
    by_cases hc : (mentionsFirstPlace mi.matched && hasSecondAndThird txt) = true
    · simp only [if_pos hc, mul_one]
    · simp only [if_neg hc, mul_one]

/-- The page text and first match of the C4 witness. -/
def wPrizeText : List Char := ("призовой фонд 1,5 млн рублей").toList

def wPrizeMi : MatchInfo :=
  { pre := [], matched := ("призовой фонд 1,5 млн руб").toList,
    caps := [(3, ("руб").toList), (2, ("млн").toList), (1, ("1,5").toList)],
    rest := ("лей").toList }

/-- C4 witness: "призовой фонд 1,5 млн рублей" yields 1 500 000. -/
theorem prize_unit_multipliers_witness :
    extractPrizeAmount wPrizeText = some 1500000 := by
  have h := ((prize_unit_multipliers wPrizeText wPrizeMi true
      ((1 : ℚ) * (((15 : Nat) : ℚ) / 10 ^ 1)) (by decide)
      (by rfl)).1 (("млн").toList) (by decide) (by decide))
  rw [h, if_neg (by decide)]
  norm_num

/-- The C4 counterexample text: pattern 2 matches with no unit token,
the matched span mentions first place, and the page mentions second and
third places. -/
def cexPrizeText : List Char :=
  ("1000 руб - 1 место. 2 место. 3 место. приз").toList

def cexPrizeMi : MatchInfo :=
  { pre := [], matched := cexPrizeText,
    caps := [(3, ("руб").toList), (1, ("1000").toList)], rest := [] }

/-- C4 counterexample: the first-matching pattern captures amount "1000"
with no unit token, but the extracted amount is 2000, not 1000: the
"1 место" doubling heuristic fires. -/
theorem prize_unit_multipliers_cex :
    firstPrizeMatch cexPrizeText prizePatterns = some (cexPrizeMi, true) ∧
    capGet cexPrizeMi.caps 1 = some (("1000").toList) ∧
    capGet cexPrizeMi.caps 2 = none ∧
    extractPrizeAmount cexPrizeText = some 2000 ∧
    (2000 : ℚ) ≠ 1000 := by
  refine ⟨by decide, by decide, by decide, ?_, by norm_num⟩
  rw [show extractPrizeAmount cexPrizeText =
      some (((1 : ℚ) * ((1000 : Nat) : ℚ)) * 1 * 2) from rfl]
  norm_num

/-! # C5 — the last-resort date fallback sorts lexicographically -/

theorem strLt_irrefl : ∀ a : List Char, strLt a a = false
  | [] => rfl
  | c :: t => by simp [strLt, lt_self_iff_false, strLt_irrefl t]

theorem strLt_conn : ∀ {a b : List Char},
    strLt a b = false → a ≠ b → strLt b a = true
  | [], [], _, hne => absurd rfl hne
  | [], _ :: _, h, _ => by simp [strLt] at h
  | _ :: _, [], _, _ => by simp [strLt]
  | a :: as2, b :: bs, h, hne => by
    simp only [strLt] at h ⊢
    by_cases hab : a < b
    · simp [hab] at h
    · by_cases hba : b < a
      · simp [hba]
      · obtain rfl : a = b := le_antisymm (not_lt.mp hba) (not_lt.mp hab)
        simp only [if_neg hab, if_neg hba] at h ⊢
        refine strLt_conn h ?_
        intro he
        exact hne (by rw [he])

theorem strLt_trans : ∀ {a b c : List Char},
    strLt a b = true → strLt b c = true → strLt a c = true
  | [], b, [], _, h2 => by cases b <;> simp [strLt] at h2
  | [], _, _ :: _, _, _ => by simp [strLt]
  | _ :: _, [], _, h1, _ => by simp [strLt] at h1
  | _ :: _, b, [], _, h2 => by cases b <;> simp [strLt] at h2
  | a :: as2, b :: bs, c :: cs, h1, h2 => by
    simp only [strLt] at h1 h2 ⊢
    by_cases hab : a < b
    · have hac : a < c := by
        by_cases hbc : b < c
        · exact lt_trans hab hbc
        · by_cases hcb : c < b
          · simp [hbc, hcb] at h2
          · obtain rfl : b = c := le_antisymm (not_lt.mp hcb) (not_lt.mp hbc)
            exact hab
      simp [hac]
    · by_cases hba : b < a
      · simp [hab, hba] at h1
      · obtain rfl : a = b := le_antisymm (not_lt.mp hba) (not_lt.mp hab)
        simp only [if_neg hab, if_neg hba] at h1
        by_cases hbc : a < c
        · simp [hbc]
        · by_cases hcb : c < a
          · simp [hbc, hcb] at h2
          · obtain rfl : a = c := le_antisymm (not_lt.mp hcb) (not_lt.mp hbc)
            simp only [if_neg hbc, if_neg hcb] at h2 ⊢
            exact strLt_trans h1 h2

theorem insertSD_mem (x z : List Char) :
    ∀ l, z ∈ insertSD x l ↔ z = x ∨ z ∈ l := by
  intro l
  induction l with
  | nil => simp [insertSD]
  | cons y t ih =>
    simp only [insertSD]
    split_ifs with h1 h2
    · simp [List.mem_cons]
    · subst h2
      simp [List.mem_cons]
    · simp only [List.mem_cons, ih]
      tauto

theorem sortDedup_mem (z : List Char) :
    ∀ l, z ∈ sortDedup l ↔ z ∈ l := by
  intro l
  induction l with
  | nil => simp [sortDedup]
  | cons y t ih =>
    simp only [sortDedup, List.foldr_cons] at ih ⊢
    rw [insertSD_mem, ih, List.mem_cons]

/-- The strict lexicographic sortedness invariant of `sortDedup`. -/
abbrev sortedStr (l : List (List Char)) : Prop :=
  l.Pairwise (fun u v => strLt u v = true)

theorem insertSD_sorted (x : List Char) :
    ∀ {l}, sortedStr l → sortedStr (insertSD x l) := by
  intro l h
  induction l with
  | nil => simp [insertSD]
  | cons y t ih =>
    rcases List.pairwise_cons.mp h with ⟨hy, ht⟩
    simp only [insertSD]
    split_ifs with h1 h2
    · refine List.pairwise_cons.mpr ⟨?_, h⟩
      intro z hz
      rcases List.mem_cons.mp hz with rfl | hz
      · exact h1
      · exact strLt_trans h1 (hy z hz)
    · exact h
    · refine List.pairwise_cons.mpr ⟨?_, ih ht⟩
      intro z hz
      rcases (insertSD_mem x z t).mp hz with rfl | hz
      · exact strLt_conn (Bool.eq_false_iff.mpr h1) (fun he => h2 he)
      · exact hy z hz

theorem sortDedup_sorted : ∀ l, sortedStr (sortDedup l) := by
  intro l
  induction l with
  | nil => simp [sortDedup]
  | cons y t ih => exact insertSD_sorted y ih

theorem pairwise_getLast {l : List (List Char)} (h : sortedStr l) :
    ∀ b, l.getLast? = some b → ∀ z ∈ l, z = b ∨ strLt z b = true := by
  induction l with
  | nil => intro b hb; simp at hb
  | cons a rest ih =>
    intro b hb z hz
    rcases List.pairwise_cons.mp h with ⟨ha, hrest⟩
    cases hr : rest with
    | nil =>
      subst hr
      have hab : a = b := by simpa using hb
      rcases List.mem_singleton.mp hz with rfl
      exact Or.inl hab
    | cons c t =>
      rw [hr] at hb
      rw [List.getLast?_cons_cons] at hb
      rw [← hr] at hb
      rcases List.mem_cons.mp hz with rfl | hz2
      · exact Or.inr (ha b (List.mem_of_getLast?_eq_some hb))
      · exact ih hrest b hb z hz2

/-- C5 (amended): the last-resort fallback assigns the lexicographically
(string-wise) least filtered date to `start_of_hack` and the
lexicographically greatest to `end_of_hack` (the sole date to start when
only one remains); `sorted()` compares the date STRINGS, not the dates they
denote, so "earliest/latest" in the chronological sense fails (see the
counterexample). -/
theorem lastResort_lex_order (txt : List Char) :
    (∀ a b, lastResortDates txt = (some a, some b) →
      a ∈ filteredDates txt ∧ b ∈ filteredDates txt ∧
      ∀ d ∈ filteredDates txt,
        (a = d ∨ strLt a d = true) ∧ (d = b ∨ strLt d b = true)) ∧
    (∀ a, lastResortDates txt = (some a, none) →
      a ∈ filteredDates txt ∧ ∀ d ∈ filteredDates txt, d = a) := by
  have hsort := sortDedup_sorted (filteredDates txt)
  constructor
  · intro a b hab
    unfold lastResortDates at hab
    rcases hu : sortDedup (filteredDates txt) with _ | ⟨x, _ | ⟨y, rest⟩⟩
    · rw [hu] at hab; simp at hab
    · rw [hu] at hab; simp at hab
    · rw [hu] at hab
      simp only [Prod.mk.injEq, Option.some.injEq] at hab
      obtain ⟨rfl, hb⟩ := hab
      rw [hu] at hsort
      have hblast : (x :: y :: rest).getLast? = some b := by
        rw [List.getLast?_cons_cons]
        exact hb
      have hbu : b ∈ x :: y :: rest := List.mem_of_getLast?_eq_some hblast
      refine ⟨(sortDedup_mem x _).mp (by rw [hu]; exact List.mem_cons_self x _),
              (sortDedup_mem b _).mp (by rw [hu]; exact hbu), ?_⟩
      intro d hd
      have hdu : d ∈ x :: y :: rest := by
        rw [← hu]
        exact (sortDedup_mem d _).mpr hd
      constructor
      · rcases List.mem_cons.mp hdu with rfl | hdu2
        · exact Or.inl rfl
        · exact Or.inr (List.rel_of_pairwise_cons hsort hdu2)
      · exact pairwise_getLast hsort b hblast d hdu
  · intro a ha
    unfold lastResortDates at ha
    rcases hu : sortDedup (filteredDates txt) with _ | ⟨x, _ | ⟨y, rest⟩⟩
    · rw [hu] at ha; simp at ha
    · rw [hu] at ha
      simp only [Prod.mk.injEq, Option.some.injEq] at ha
      obtain ⟨rfl, -⟩ := ha
      refine ⟨(sortDedup_mem x _).mp (by rw [hu]; exact List.mem_singleton_self x), ?_⟩
      intro d hd
      have hdx : d ∈ [x] := by
        rw [← hu]
        exact (sortDedup_mem d _).mpr hd
      exact List.mem_singleton.mp hdx
    · rw [hu] at ha
      simp at ha

/-- The C5 witness text: two dates already in lexicographic = chronological
agreement. -/
def wC5txt : List Char := ("хакатон пройдет 5 июня 2025 и 7 июня 2025").toList

/-- C5 witness: the fallback picks the two dates in lexicographic order. -/
theorem lastResort_lex_order_witness :
    ("5 июня 2025").toList ∈ filteredDates wC5txt ∧
    ("7 июня 2025").toList ∈ filteredDates wC5txt ∧
    ∀ d ∈ filteredDates wC5txt,
      (("5 июня 2025").toList = d ∨ strLt (("5 июня 2025").toList) d = true) ∧
      (d = ("7 июня 2025").toList ∨ strLt d (("7 июня 2025").toList) = true) :=
  (lastResort_lex_order wC5txt).1 _ _ (by decide)

/-- The C5 counterexample text: "2 мая 2025" is chronologically earliest,
but "10 августа 2025" is lexicographically smaller. -/
def cexC5txt : List Char := ("пройдет 2 мая 2025 и 10 августа 2025").toList

/-- C5 counterexample: the fallback assigns start = "10 августа 2025" and
end = "2 мая 2025", although the start is chronologically LATER than the
end — the claim's "earliest becomes start, latest becomes end" fails. -/
theorem lastResort_lex_order_cex :
    lastResortDates cexC5txt =
      (some (("10 августа 2025").toList), some (("2 мая 2025").toList)) ∧
    parse_ru_date (("2 мая 2025").toList) = some ⟨2025, 5, 2⟩ ∧
    parse_ru_date (("10 августа 2025").toList) = some ⟨2025, 8, 10⟩ ∧
    dateLt ⟨2025, 5, 2⟩ ⟨2025, 8, 10⟩ = true :=
  ⟨by decide, by decide, by decide, by decide⟩

/-! # C6 — idempotence of the cleaner -/

/-- Three consecutive newlines occur somewhere in the string (a `\n{3,}`
match exists). -/
def hasTriple : List Char → Bool
  | a :: b :: c :: t =>
    (a = '\n' && b = '\n' && c = '\n') || hasTriple (b :: c :: t)
  | _ => false

theorem hasTriple_cons_ne {c : Char} (hc : c ≠ '\n') :
    ∀ z, hasTriple (c :: z) = hasTriple z := by
  intro z
  match z with
  | [] => rfl
  | [x] => rfl
  | x :: y :: t => simp [hasTriple, hc]

theorem hasTriple_cons_mono {c : Char} :
    ∀ {z}, hasTriple z = true → hasTriple (c :: z) = true := by
  intro z h
  match z with
  | [] => simp [hasTriple] at h
  | [x] => simp [hasTriple] at h
  | x :: y :: t =>
    simp only [hasTriple, Bool.or_eq_true]
    exact Or.inr h

theorem hasTriple_append_right {x z : List Char} (h : hasTriple z = true) :
    hasTriple (x ++ z) = true := by
  induction x with
  | nil => simpa using h
  | cons c t ih => exact hasTriple_cons_mono ih

theorem hasTriple_append_left : ∀ x, hasTriple x = true →
    ∀ z, hasTriple (x ++ z) = true
  | a :: b :: c :: t, h, z => by
    simp only [hasTriple, Bool.or_eq_true] at h
    rcases h with h | h
    · simp only [List.cons_append, hasTriple, Bool.or_eq_true]
      exact Or.inl h
    · simp only [List.cons_append, hasTriple, Bool.or_eq_true]
      exact Or.inr (by simpa using hasTriple_append_left (b :: c :: t) h z)
  | [], h, _ => by simp [hasTriple] at h
  | [a], h, _ => by simp [hasTriple] at h
  | [a, b], h, _ => by simp [hasTriple] at h

theorem hasTriple_repl_le2 {k : Nat} (hk : k ≤ 2) :
    hasTriple (List.replicate k '\n') = false := by
  interval_cases k <;> decide

theorem hasTriple_repl_prepend {j : Nat} (hj : j ≤ 2) {c : Char}
    (hc : c ≠ '\n') (z : List Char) :
    hasTriple (List.replicate j '\n' ++ c :: z) = hasTriple (c :: z) := by
  interval_cases j
  · rfl
  · rw [show List.replicate 1 '\n' ++ c :: z = '\n' :: c :: z from rfl]
    match z with
    | [] => simp [hasTriple]
    | y :: t => simp [hasTriple, hc]
  · rw [show List.replicate 2 '\n' ++ c :: z = '\n' :: '\n' :: c :: z from rfl]
    match z with
    | [] => simp [hasTriple, hc]
    | y :: t => simp [hasTriple, hc]

/-- The collapsed string never contains three consecutive newlines. -/
theorem collapseNlAux_noTriple : ∀ (m : List Char) (n : Nat),
    hasTriple (collapseNlAux n m) = false := by
  intro m
  induction m with
  | nil =>
    intro n
    exact hasTriple_repl_le2 (Nat.min_le_right n 2)
  | cons c t ih =>
    intro n
    by_cases hc : c = '\n'
    · simp only [collapseNlAux, if_pos hc]
      exact ih (n + 1)
    · simp only [collapseNlAux, if_neg hc]
      rw [hasTriple_repl_prepend (Nat.min_le_right n 2) hc,
        hasTriple_cons_ne hc]
      exact ih 0

theorem collapseNl_noTriple (l : List Char) :
    hasTriple (collapseNl l) = false :=
  collapseNlAux_noTriple l 0

theorem replicate_cons_shift (n : Nat) (x : Char) (t : List Char) :
    List.replicate n x ++ x :: t = List.replicate (n + 1) x ++ t := by
  rw [List.replicate_succ']
  simp [List.append_assoc]

/-- Collapsing is the identity on strings without a `\n{3,}` match. -/
theorem collapseNlAux_id : ∀ (l : List Char) (n : Nat), n ≤ 2 →
    hasTriple (List.replicate n '\n' ++ l) = false →
    collapseNlAux n l = List.replicate n '\n' ++ l := by
  intro l
  induction l with
  | nil =>
    intro n hn _
    simp only [collapseNlAux, Nat.min_eq_left hn, List.append_nil]
  | cons c t ih =>
    intro n hn htr
    by_cases hc : c = '\n'
    · subst hc
      rw [replicate_cons_shift] at htr ⊢
      have hn1 : n + 1 ≤ 2 := by
        by_contra hgt
        have hn2 : n = 2 := by omega
        subst hn2
        simp [hasTriple] at htr
      simp only [collapseNlAux, if_pos rfl]
      exact ih (n + 1) hn1 htr
    · have htrt : hasTriple t = false := by
        rw [Bool.eq_false_iff]
        intro hcontra
        rw [Bool.eq_false_iff] at htr
        exact htr (hasTriple_append_right (hasTriple_cons_mono hcontra))
      simp only [collapseNlAux, if_neg hc, Nat.min_eq_left hn]
      rw [ih 0 (by omega) (by simpa using htrt)]
      simp

theorem collapseNl_id {l : List Char} (h : hasTriple l = false) :
    collapseNl l = l := by
  simpa using collapseNlAux_id l 0 (by omega) (by simpa using h)

/-- `dropWhile` is idempotent. -/
theorem dropWhile_dropWhile (p : Char → Bool) : ∀ l : List Char,
    (l.dropWhile p).dropWhile p = l.dropWhile p := by
  intro l
  induction l with
  | nil => rfl
  | cons c t ih =>
    by_cases hp : p c = true
    · simp [List.dropWhile_cons, hp, ih]
    · simp [List.dropWhile_cons, hp]

theorem dropWhile_head_not (p : Char → Bool) : ∀ (l : List Char) (c : Char),
    (l.dropWhile p).head? = some c → p c = false := by
  intro l
  induction l with
  | nil => intro c h; simp at h
  | cons a t ih =>
    intro c h
    by_cases hp : p a = true
    · rw [List.dropWhile_cons, if_pos hp] at h
      exact ih c h
    · rw [List.dropWhile_cons, if_neg hp] at h
      simp only [List.head?_cons, Option.some.injEq] at h
      subst h
      exact Bool.eq_false_iff.mpr hp

/-- `stripRight l` is a prefix of `l`. -/
theorem stripRight_append (l : List Char) :
    stripRight l ++ (l.reverse.takeWhile isWsChar).reverse = l := by
  unfold stripRight
  rw [← List.reverse_append, List.takeWhile_append_dropWhile, List.reverse_reverse]

theorem stripRight_stripRight (l : List Char) :
    stripRight (stripRight l) = stripRight l := by
  unfold stripRight
  rw [List.reverse_reverse, dropWhile_dropWhile]

theorem hasTriple_stripLeft {l : List Char} (h : hasTriple l = false) :
    hasTriple (stripLeft l) = false := by
  rw [Bool.eq_false_iff] at h ⊢
  intro hcontra
  refine h ?_
  rw [← List.takeWhile_append_dropWhile (p := isWsChar) (l := l)]
  exact hasTriple_append_right hcontra

theorem hasTriple_stripRight {l : List Char} (h : hasTriple l = false) :
    hasTriple (stripRight l) = false := by
  rw [Bool.eq_false_iff] at h ⊢
  intro hcontra
  refine h ?_
  rw [← stripRight_append l]
  exact hasTriple_append_left _ hcontra _

theorem hasTriple_pyStrip {l : List Char} (h : hasTriple l = false) :
    hasTriple (pyStrip l) = false :=
  hasTriple_stripRight (hasTriple_stripLeft h)

/-- `strip()` is idempotent. -/
theorem pyStrip_pyStrip (l : List Char) : pyStrip (pyStrip l) = pyStrip l := by
  unfold pyStrip
  have hleft : stripLeft (stripRight (stripLeft l)) = stripRight (stripLeft l) := by
    cases hsr : stripRight (stripLeft l) with
    | nil => rfl
    | cons c cs =>
      have hhead : (stripLeft l).head? = some c := by
        have happ := stripRight_append (stripLeft l)
        rw [hsr] at happ
        rw [← happ]
        rfl
      have hc : isWsChar c = false := dropWhile_head_not isWsChar l c hhead
      unfold stripLeft
      rw [List.dropWhile_cons, if_neg (by simp [hc])]
  rw [hleft, stripRight_stripRight]

/-- C6 (amended): the newline-collapsing-and-trimming stage of the cleaner
is idempotent.  The full cleaning step is NOT: a phrase-removal pass can
splice two string halves into a fresh boilerplate occurrence, which only a
second application removes (see the counterexample). -/
theorem collapseStrip_idem (s : List Char) :
    collapseStrip (collapseStrip s) = collapseStrip s := by
  unfold collapseStrip
  have h1 : hasTriple (collapseNl s) = false := collapseNl_noTriple s
  have h2 : hasTriple (pyStrip (collapseNl s)) = false := hasTriple_pyStrip h1
  rw [collapseNl_id h2, pyStrip_pyStrip]

/-- The C6 counterexample input: removing the inner
"Регистрация открыта" splices the outer halves into a new occurrence. -/
def cexC6txt : List Char := ("Регистрация оРегистрация открытаткрыта").toList

/-- C6 counterexample: the full cleaner is not idempotent. -/
theorem collapseStrip_idem_cex :
    cleanDescription cexC6txt = ("Регистрация открыта").toList ∧
    cleanDescription (cleanDescription cexC6txt) = [] ∧
    cleanDescription (cleanDescription cexC6txt) ≠ cleanDescription cexC6txt :=
  ⟨by decide, by decide, by decide⟩

/-! # C7 — list-item prefixes in the reconstructor -/

mutual

theorem HNode.beq_refl : ∀ a : HNode, HNode.beq a a = true
  | .text s => by simp [HNode.beq]
  | .elem t c ch => by simp [HNode.beq, HNode.beqList_refl ch]

theorem HNode.beqList_refl : ∀ l : List HNode, HNode.beqList l l = true
  | [] => by simp [HNode.beqList]
  | a :: t => by simp [HNode.beqList, HNode.beq_refl a, HNode.beqList_refl t]

end

theorem extractTWSList_eq_map (p : HNode) :
    ∀ ch, extractTWSList p ch = ch.map (extractTWS (some p)) := by
  intro ch
  induction ch with
  | nil => rfl
  | cons c t ih => simp [extractTWSList, ih]

theorem liItemText_eq (tag : String) (cls : List String) (ch : List HNode) :
    liItemText (HNode.elem tag cls ch) =
      pyStripS (String.intercalate " "
        (extractTWSList (HNode.elem tag cls ch) ch)) := by
  rw [liItemText, extractTWSList_eq_map]

theorem indexOf_first_eq (node : HNode) :
    ∀ (pre post : List HNode), (∀ x ∈ pre, HNode.beq x node = false) →
    (pre ++ node :: post).indexOf node = pre.length := by
  intro pre
  induction pre with
  | nil =>
    intro post _
    simp only [List.nil_append, List.indexOf_cons]
    rw [show (node == node) = true from HNode.beq_refl node]
    rfl
  | cons x t ih =>
    intro post h
    simp only [List.cons_append, List.indexOf_cons]
    rw [show (x == node) = HNode.beq x node from rfl, h x (List.mem_cons_self x t)]
    rw [ih post (fun z hz => h z (List.mem_cons_of_mem x hz))]
    rfl

/-- C7 (amended): a non-pruned `li` with non-empty item text under a `ul`
parent is emitted as `"- "` plus its text; under an `ol` parent it is
emitted with the numeric prefix `n. ` where `n - 1` is `list.index(node)` on
the parent's direct `li` children — the index of the FIRST structurally
equal sibling (equal to the item's own position only when no earlier
sibling is structurally identical, which the third conjunct makes precise;
the counterexample shows a duplicate item breaking the original claim). -/
theorem li_prefix_rules :
    (∀ (cls : List String) (ch : List HNode) (pcls : List String)
        (pch : List HNode),
      classesPruned cls = false →
      liItemText (HNode.elem ("li") cls ch) ≠ "" →
      extractTWS (some (HNode.elem ("ul") pcls pch)) (HNode.elem ("li") cls ch) =
        "- " ++ liItemText (HNode.elem ("li") cls ch)) ∧
    (∀ (cls : List String) (ch : List HNode) (pcls : List String)
        (pch : List HNode),
      classesPruned cls = false →
      liItemText (HNode.elem ("li") cls ch) ≠ "" →
      extractTWS (some (HNode.elem ("ol") pcls pch)) (HNode.elem ("li") cls ch) =
        toString ((liChildrenOf pch).indexOf (HNode.elem ("li") cls ch) + 1) ++
          ". " ++ liItemText (HNode.elem ("li") cls ch)) ∧
    (∀ (node : HNode) (pre post : List HNode),
      (∀ x ∈ pre, HNode.beq x node = false) →
      (pre ++ node :: post).indexOf node = pre.length) := by
  refine ⟨?_, ?_, ?_⟩
  · intro cls ch pcls pch hprune hne
    rw [liItemText_eq] at hne ⊢
    simp only [extractTWS, if_neg (by simp [hprune] : ¬ classesPruned cls = true),
      if_pos rfl]
    rw [if_pos hne]
    simp only [if_true]
  · intro cls ch pcls pch hprune hne
    rw [liItemText_eq] at hne ⊢
    simp only [extractTWS, if_neg (by simp [hprune] : ¬ classesPruned cls = true),
      if_pos rfl]
    rw [if_pos hne]
    simp only [if_true]
  · exact fun node pre post h => indexOf_first_eq node pre post h

/-- C7 witness: a concrete `ul` item and the `ol` index of a duplicate-free
list. -/
theorem li_prefix_rules_witness :
    extractTWS (some (HNode.elem ("ul") [] []))
        (HNode.elem ("li") [] [HNode.text ("x")]) = "- x" ∧
    ([HNode.elem ("li") [] [HNode.text ("q")]] ++
        HNode.elem ("li") [] [HNode.text ("r")] ::
          []).indexOf (HNode.elem ("li") [] [HNode.text ("r")]) = 1 := by
  constructor
  · have h := li_prefix_rules.1 [] [HNode.text ("x")] [] [] (by decide) (by decide)
    rw [h]
    decide
  · refine li_prefix_rules.2.2 (HNode.elem ("li") [] [HNode.text ("r")])
      [HNode.elem ("li") [] [HNode.text ("q")]] [] ?_
    intro x hx
    rcases List.mem_singleton.mp hx with rfl
    decide

/-- The C7 counterexample: an ordered list with two structurally identical
items. -/
def cexC7ol : HNode :=
  HNode.elem ("ol") []
    [HNode.elem ("li") [] [HNode.text ("a")],
     HNode.elem ("li") [] [HNode.text ("a")]]

/-- C7 counterexample: both duplicates are emitted with prefix "1. ": the
second item's 1-based position is 2, but `list.index` finds the first
structurally equal sibling, so the reconstruction is "1. a\n1. a", not the
"1. a\n2. a" the claim requires. -/
theorem li_prefix_rules_cex :
    extractTWS none cexC7ol = "1. a\n1. a" ∧
    ("1. a\n1. a" : String) ≠ "1. a\n2. a" :=
  ⟨by decide, by decide⟩

/-! # C9 — equivalence of the two extraction modules -/

theorem isYearStr_shape {c4 : List Char} (h : isYearStr c4 = true) :
    ∃ a b c d, c4 = [a, b, c, d] ∧ isYearDigits a b c d = true := by
  rcases c4 with _ | ⟨a, _ | ⟨b, _ | ⟨c, _ | ⟨d, _ | ⟨e, t⟩⟩⟩⟩⟩ <;>
    simp [isYearStr] at h
  exact ⟨a, b, c, d, rfl, h⟩

theorem boundaryOk_append (prev : Option Char) (z w : List Char) :
    boundaryOk prev (z ++ ' ' :: w) = boundaryOk prev z := by
  cases z with
  | nil => simp [boundaryOk, isWordChar]
  | cons c t => simp [boundaryOk]

/-- Scanning `D ++ " " ++ c4`, where `D` alone has no boundary-delimited
year token and `c4` is one, finds exactly `c4`. -/
theorem findYear_append {a b c d : Char} (hy : isYearDigits a b c d = true) :
    ∀ (D : List Char) (prev : Option Char), findYearTokBAux prev D = none →
    findYearTokBAux prev (D ++ ' ' :: [a, b, c, d]) = some [a, b, c, d] := by
  intro D
  induction D with
  | nil =>
    intro prev _
    show findYearTokBAux prev (' ' :: a :: b :: c :: [d]) = some [a, b, c, d]
    rw [findYearTokBAux]
    rw [if_neg (by simp [isYearDigits])]
    rw [findYearTokBAux]
    rw [if_pos (by simp [hy, boundaryOk, isWordChar])]
  | cons x D2 ih =>
    intro prev hfind
    rcases D2 with _ | ⟨y1, _ | ⟨y2, _ | ⟨y3, D3⟩⟩⟩
    · show findYearTokBAux prev (x :: ' ' :: a :: b :: (c :: [d])) = _
      rw [findYearTokBAux]
      rw [if_neg (by simp [isYearDigits])]
      exact ih (some x) rfl
    · show findYearTokBAux prev (x :: y1 :: ' ' :: a :: (b :: c :: [d])) = _
      rw [findYearTokBAux]
      rw [if_neg (by simp [isYearDigits])]
      exact ih (some x) rfl
    · show findYearTokBAux prev (x :: y1 :: y2 :: ' ' :: (a :: b :: c :: [d])) = _
      rw [findYearTokBAux]
      rw [if_neg (by simp [isYearDigits, show isDigitChar ' ' = false from rfl])]
      exact ih (some x) rfl
    · rw [findYearTokBAux] at hfind
      by_cases hcond : (isYearDigits x y1 y2 y3 && boundaryOk prev D3) = true
      · rw [if_pos hcond] at hfind
        exact absurd hfind (by simp)
      · rw [if_neg hcond] at hfind
        show findYearTokBAux prev
          (x :: y1 :: y2 :: y3 :: (D3 ++ ' ' :: [a, b, c, d])) = _
        rw [findYearTokBAux]
        rw [if_neg (by rw [boundaryOk_append]; exact hcond)]
        exact ih (some x) hfind

/-- Substituting on `D ++ " " ++ c4` under the same hypotheses replaces
exactly the trailing year. -/
theorem subYear_append {a b c d : Char} (hy : isYearDigits a b c d = true)
    (y : List Char) :
    ∀ (D : List Char) (prev : Option Char), findYearTokBAux prev D = none →
    subYearAllBAux y prev (D ++ ' ' :: [a, b, c, d]) = D ++ ' ' :: y := by
  intro D
  induction D with
  | nil =>
    intro prev _
    show subYearAllBAux y prev (' ' :: a :: b :: c :: [d]) = ' ' :: y
    rw [subYearAllBAux]
    rw [if_neg (by simp [isYearDigits])]
    rw [subYearAllBAux]
    rw [if_pos (by simp [hy, boundaryOk, isWordChar])]
    simp [subYearAllBAux]
  | cons x D2 ih =>
    intro prev hfind
    rcases D2 with _ | ⟨y1, _ | ⟨y2, _ | ⟨y3, D3⟩⟩⟩
    · show subYearAllBAux y prev (x :: ' ' :: a :: b :: (c :: [d])) = _
      rw [subYearAllBAux]
      rw [if_neg (by simp [isYearDigits])]
      have h2 := ih (some x) rfl
      simp only [List.nil_append] at h2
      rw [h2]
      rfl
    · show subYearAllBAux y prev (x :: y1 :: ' ' :: a :: (b :: c :: [d])) = _
      rw [subYearAllBAux]
      rw [if_neg (by simp [isYearDigits])]
      have h2 := ih (some x) rfl
      simp only [List.singleton_append] at h2
      rw [h2]
      rfl
    · show subYearAllBAux y prev (x :: y1 :: y2 :: ' ' :: (a :: b :: c :: [d])) = _
      rw [subYearAllBAux]
      rw [if_neg (by simp [isYearDigits, show isDigitChar ' ' = false from rfl])]
      have h2 := ih (some x) rfl
      simp only [List.cons_append, List.nil_append] at h2
      rw [h2]
      rfl
    · rw [findYearTokBAux] at hfind
      by_cases hcond : (isYearDigits x y1 y2 y3 && boundaryOk prev D3) = true
      · rw [if_pos hcond] at hfind
        exact absurd hfind (by simp)
      · rw [if_neg hcond] at hfind
        show subYearAllBAux y prev
          (x :: y1 :: y2 :: y3 :: (D3 ++ ' ' :: [a, b, c, d])) = _
        rw [subYearAllBAux]
        rw [if_neg (by rw [boundaryOk_append]; exact hcond)]
        have h2 := ih (some x) hfind
        simp only [List.cons_append] at h2 ⊢
        rw [h2]

/-- C9: the two modules agree on `expected_year` whenever a year token is
found in the name or the event-date fields (conjunct 1), differ exactly by
current-year vs current-year-plus-one when none is found (conjunct 2), share
one `update_year_in_date` function (conjunct 3), agree on the
registration-division default whenever a year is found in the nearby text
(conjunct 4), and their two no-year registration defaults (current year in
`src`, the name year in `utils`) converge to the same string once the final
rewriting applies the name's expected year (conjunct 5). -/
theorem modules_year_equivalence :
    (∀ name s e cur,
      ((findYearTok name).isSome ∨ (s.bind findYearTok).isSome ∨
        (e.bind findYearTok).isSome) →
      expectedYearUtils name s e cur = expectedYearMain name s e cur) ∧
    (∀ name s e cur, findYearTok name = none → s.bind findYearTok = none →
      e.bind findYearTok = none →
      expectedYearMain name s e cur = (toString cur).toList ∧
      expectedYearUtils name s e cur = (toString (cur + 1)).toList) ∧
    (∀ d y, update_year_in_date d y = update_year_in_date_utils d y) ∧
    (∀ divText name cur y, findYearTokB divText = some y →
      regYearUtils divText name cur = regYearMain divText cur) ∧
    (∀ D c4 Y, findYearTokB D = none → isYearStr c4 = true →
      isYearStr Y = true → c4 ≠ Y →
      update_year_in_date (D ++ ' ' :: c4) Y = D ++ ' ' :: Y ∧
      update_year_in_date (D ++ ' ' :: Y) Y = D ++ ' ' :: Y) := by
  refine ⟨?_, ?_, ?_, ?_, ?_⟩
  · intro name s e cur h
    rcases hn : findYearTok name with _ | y1
    · rcases hs : s.bind findYearTok with _ | y2
      · rcases he : e.bind findYearTok with _ | y3
        · rw [hn, hs, he] at h
          simp at h
        · simp only [expectedYearMain, expectedYearUtils, hn, hs, he]
      · simp only [expectedYearMain, expectedYearUtils, hn, hs]
    · simp only [expectedYearMain, expectedYearUtils, hn]
  · intro name s e cur hn hs he
    constructor
    · simp only [expectedYearMain, hn, hs, he]
    · simp only [expectedYearUtils, hn, hs, he]
  · intro d y
    rfl
  · intro divText name cur y h
    simp only [regYearMain, regYearUtils, h]
  · intro D c4 Y hD hc4 hY hne
    obtain ⟨a, b, c, d, rfl, hy⟩ := isYearStr_shape hc4
    obtain ⟨a2, b2, c2, d2, rfl, hy2⟩ := isYearStr_shape hY
    have hfind := findYear_append hy D none hD
    have hfind2 := findYear_append hy2 D none hD
    have hsub := subYear_append hy [a2, b2, c2, d2] D none hD
    constructor
    · unfold update_year_in_date
      rw [if_neg (by simp)]
      rw [show findYearTokB (D ++ ' ' :: [a, b, c, d]) = some [a, b, c, d]
        from hfind]
      show (if ([a, b, c, d] ≠ [a2, b2, c2, d2]) then
          subYearAllB [a2, b2, c2, d2] (D ++ ' ' :: [a, b, c, d])
        else D ++ ' ' :: [a, b, c, d]) = D ++ ' ' :: [a2, b2, c2, d2]
      rw [if_pos hne]
      exact hsub
    · unfold update_year_in_date
      rw [if_neg (by simp)]
      rw [show findYearTokB (D ++ ' ' :: [a2, b2, c2, d2]) =
        some [a2, b2, c2, d2] from hfind2]
      show (if ([a2, b2, c2, d2] ≠ [a2, b2, c2, d2]) then
          subYearAllB [a2, b2, c2, d2] (D ++ ' ' :: [a2, b2, c2, d2])
        else D ++ ' ' :: [a2, b2, c2, d2]) = D ++ ' ' :: [a2, b2, c2, d2]
      rw [if_neg (by simp)]

/-- C9 witness: "12 апреля" with the current year 2026 appended (src) and
with the name year 2030 appended (utils) both rewrite to
"12 апреля 2030" under expected year 2030, and 2026 vs 2027 are the exact
fallback outputs. -/
theorem modules_year_equivalence_witness :
    update_year_in_date (("12 апреля").toList ++ ' ' :: ("2026").toList)
        (("2030").toList) = ("12 апреля").toList ++ ' ' :: ("2030").toList ∧
    update_year_in_date (("12 апреля").toList ++ ' ' :: ("2030").toList)
        (("2030").toList) = ("12 апреля").toList ++ ' ' :: ("2030").toList ∧
    expectedYearMain (("Хакатон").toList) none none 2026 = ("2026").toList ∧
    expectedYearUtils (("Хакатон").toList) none none 2026 = ("2027").toList := by
  have h5 := modules_year_equivalence.2.2.2.2 (("12 апреля").toList)
    (("2026").toList) (("2030").toList) (by decide) (by decide) (by decide)
    (by decide)
  have h2 := modules_year_equivalence.2.1 (("Хакатон").toList) none none 2026
    rfl rfl rfl
  exact ⟨h5.1, h5.2, h2.1, h2.2⟩

end HackSpec
